import Mathlib

/-!
Shallow embedding of the numerical core of the svZeroDSolver Python
repository (generalized-alpha integrator, block library, model builder
and steady-state configuration transform), together with proofs that
settle the frozen claims about its specification.

Numbers: Python floats are modelled as exact rationals.  Where NaN
propagation is observable (the Newton loops of `algebra.py` and
`time_integration.py`), scalars are modelled by the type `NF` below,
a rational extended with a NaN element that propagates through
arithmetic and makes every comparison false, mirroring IEEE-754 NaN
semantics (infinities are not needed by any claim and are folded into
NaN).
-/

/-! ### Scalars with NaN (for the integrator loops) -/

/-- A float value: either NaN or an exact rational. -/
inductive NF where
  | nan : NF
  | val : ℚ → NF
deriving DecidableEq

/-- Addition; NaN propagates (IEEE-754). -/
def NF.add : NF → NF → NF
  | .val a, .val b => .val (a + b)
  | _, _ => .nan

/-- Multiplication; NaN propagates. -/
def NF.mul : NF → NF → NF
  | .val a, .val b => .val (a * b)
  | _, _ => .nan

/-- Negation; NaN propagates. -/
def NF.neg : NF → NF
  | .val a => .val (-a)
  | .nan => .nan

/-- Subtraction; NaN propagates. -/
def NF.sub : NF → NF → NF
  | .val a, .val b => .val (a - b)
  | _, _ => .nan

/-- Division; NaN propagates, and division by zero (a non-finite float
result) is also mapped to NaN. -/
def NF.div : NF → NF → NF
  | .val a, .val b => if b = 0 then .nan else .val (a / b)
  | _, _ => .nan

/-- Absolute value; NaN propagates (`np.abs`). -/
def NF.abs : NF → NF
  | .val a => .val |a|
  | .nan => .nan

/-- Comparison `a <= b`; false whenever an operand is NaN (IEEE-754). -/
def NF.leB : NF → NF → Bool
  | .val a, .val b => decide (a ≤ b)
  | _, _ => false

/-- Comparison `a > b`; false whenever an operand is NaN (IEEE-754). -/
def NF.gtB : NF → NF → Bool
  | .val a, .val b => decide (b < a)
  | _, _ => false

/-- NaN test (`np.isnan`). -/
def NF.isnan : NF → Bool
  | .nan => true
  | .val _ => false

/-- Binary maximum; NaN propagates (`np.ndarray.max`). -/
def NF.maxNF : NF → NF → NF
  | .val a, .val b => .val (max a b)
  | _, _ => .nan

/-! ### Vectors and matrices over `NF` -/

/-- A numpy vector of length `n`. -/
abbrev Vec (n : ℕ) := Fin n → NF

/-- A numpy `n × n` matrix. -/
abbrev MatN (n : ℕ) := Fin n → Fin n → NF

/-- Elementwise vector addition. -/
def vecAdd {n : ℕ} (a b : Vec n) : Vec n := fun i => (a i).add (b i)

/-- Elementwise vector subtraction. -/
def vecSub {n : ℕ} (a b : Vec n) : Vec n := fun i => (a i).sub (b i)

/-- Scalar times vector (numpy broadcasting). -/
def vecScale {n : ℕ} (a : Vec n) (c : NF) : Vec n := fun i => (a i).mul c

/-- Vector divided elementwise by a scalar (numpy broadcasting). -/
def vecDivS {n : ℕ} (a : Vec n) (c : NF) : Vec n := fun i => (a i).div c

/-- Dot product of a matrix row with a vector (`np.dot`). -/
def dotNF {n : ℕ} (row v : Vec n) : NF :=
  (List.finRange n).foldr (fun j acc => ((row j).mul (v j)).add acc) (NF.val 0)

/-- Matrix-vector product (`M.dot(v)`). -/
def matVec {n : ℕ} (M : MatN n) (v : Vec n) : Vec n := fun i => dotNF (M i) v

/-- Maximum of the elementwise absolute values, `np.abs(v).max()`.
Folded against `0`; since absolute values are nonnegative this agrees
with numpy for every nonempty vector, and NaN entries propagate. -/
def vecAbsMax {n : ℕ} (v : Vec n) : NF :=
  (List.finRange n).foldr (fun j acc => (v j).abs.maxNF acc) (NF.val 0)

/-- Whether some entry is NaN, `np.isnan(v).any()`. -/
def vecHasNaN {n : ℕ} (v : Vec n) : Bool :=
  (List.finRange n).any (fun j => (v j).isnan)

/-- Lift an exact rational vector into `NF`. -/
def vecOfQ {n : ℕ} (v : Fin n → ℚ) : Vec n := fun i => NF.val (v i)

/-- Lift an exact rational matrix into `NF`. -/
def matOfQ {n : ℕ} (M : Fin n → Fin n → ℚ) : MatN n := fun i j => NF.val (M i j)

/-! ### Generalized-alpha integrator (`svzerodsolver/algebra.py`) -/

/-- Constant `alpha_m = 0.5 * (3.0 - rho) / (1.0 + rho)`
(`GeneralizedAlpha.__init__`). -/
def alphaM (rho : ℚ) : ℚ := 1/2 * (3 - rho) / (1 + rho)

/-- Constant `alpha_f = 1.0 / (1.0 + rho)`. -/
def alphaF (rho : ℚ) : ℚ := 1 / (1 + rho)

/-- Constant `gamma = 0.5 + alpha_m - alpha_f`. -/
def gammaGA (rho : ℚ) : ℚ := 1/2 + alphaM rho - alphaF rho

/-- Constant `fac = alpha_m / (alpha_f * gamma)`. -/
def facGA (rho : ℚ) : ℚ := alphaM rho / (alphaF rho * gammaGA rho)

/-- The linear solver chosen by `GeneralizedAlpha.__init__`. -/
inductive SolverKind where
  | sparse : SolverKind
  | dense : SolverKind
deriving DecidableEq

/-- Solver selection: `scipy.sparse.linalg.spsolve` if `n > 800`, else
`np.linalg.solve` (`GeneralizedAlpha.__init__`). -/
def solverSelect (n : ℕ) : SolverKind :=
  if 800 < n then SolverKind.sparse else SolverKind.dense

/-- Default `rho` of `run_integrator` (`rho=0.1`). -/
def runIntegratorDefaultRho : ℚ := 1/10

/-- Default `atol` of `run_integrator`: the source reads `atol=10 - 8`,
which is the integer expression ten minus eight. -/
def runIntegratorDefaultAtol : ℚ := 10 - 8

/-- Default `max_iter` of `run_integrator` (`max_iter=30`). -/
def runIntegratorDefaultMaxIter : ℕ := 30

/-- Default `atol` of `GeneralizedAlpha.__init__` (`atol=1e-8`);
overridden by the value `run_integrator` passes explicitly. -/
def generalizedAlphaDefaultAtol : ℚ := 1 / 10 ^ 8

/-- Default `max_iter` of `GeneralizedAlpha.__init__` (`max_iter=30`). -/
def generalizedAlphaDefaultMaxIter : ℕ := 30

/-- The global matrices `E`, `F`, `dE`, `dF`, `dC` and vector `C` after
assembly (`self.mat`). -/
structure SysMats (n : ℕ) where
  matE : MatN n
  matF : MatN n
  matdE : MatN n
  matdF : MatN n
  matdC : MatN n
  vecC : Vec n

/-- Newton residual `res = -E.dot(ydotam) - F.dot(yaf) - C`
(`GeneralizedAlpha.step`, and identically `GenAlpha.form_rhs_NR` in
`time_integration.py`). -/
def residualNF {n : ℕ} (m : SysMats n) (yaf ydotam : Vec n) : Vec n :=
  fun i => ((matVec m.matE ydotam i).neg.sub (matVec m.matF yaf i)).sub (m.vecC i)

/-- Newton matrix `lhs = F + (dE + dF + dC + E * fac * invdt)`
(`GeneralizedAlpha.step`, and identically `GenAlpha.form_matrix_NR`). -/
def jacobianNF {n : ℕ} (m : SysMats n) (fac invdt : NF) : MatN n :=
  fun i j =>
    (m.matF i j).add
      ((((m.matdE i j).add (m.matdF i j)).add (m.matdC i j)).add
        (((m.matE i j).mul fac).mul invdt))

/-- The Newton-loop state: the substep quantities `yaf` and `ydotam`. -/
structure GAState (n : ℕ) where
  yaf : Vec n
  ydotam : Vec n

/-- Convergence test of a state: `np.abs(res).max() <= self.atol` on the
residual of the freshly assembled system.  `assemble` abstracts
`update_solution` on every block followed by `self.assemble(block_list)`
(the blocks' `update_time` was already called before the loop, so the
matrices depend only on the current `yaf`). -/
def gaTest {n : ℕ} (assemble : Vec n → SysMats n) (atol : NF) (s : GAState n) : Bool :=
  (vecAbsMax (residualNF (assemble s.yaf) s.yaf s.ydotam)).leB atol

/-- A single non-converged Newton iteration: solve
`lhs * dy = res` and update `yaf += dy`, `ydotam += dy * fac * invdt`.
`solve` abstracts the external linear solver (`np.linalg.solve` or
`scipy.sparse.linalg.spsolve`). -/
def newtonUpdate {n : ℕ} (assemble : Vec n → SysMats n)
    (solve : MatN n → Vec n → Vec n) (fac invdt : NF) (s : GAState n) : GAState n :=
  let m := assemble s.yaf
  let res := residualNF m s.yaf s.ydotam
  let lhs := jacobianNF m fac invdt
  let dy := solve lhs res
  ⟨vecAdd s.yaf dy, vecAdd s.ydotam (vecScale dy (fac.mul invdt))⟩

/-- Result of the Newton loop: final state, number of executed loop
iterations, whether the loop broke on the convergence test, and the
residual of the last executed iteration (the `res` visible after the
loop). -/
structure GALoopResult (n : ℕ) where
  state : GAState n
  iters : ℕ
  converged : Bool
  lastRes : Vec n

/-- The Newton loop `for iter in range(max_iter)` of
`GeneralizedAlpha.step`, by recursion on the remaining iterations. -/
def newtonLoop {n : ℕ} (assemble : Vec n → SysMats n)
    (solve : MatN n → Vec n → Vec n) (fac invdt atol : NF) :
    ℕ → GAState n → GALoopResult n
  | 0, s => ⟨s, 0, false, fun _ => NF.val 0⟩
  | k + 1, s =>
    let m := assemble s.yaf
    let res := residualNF m s.yaf s.ydotam
    if (vecAbsMax res).leB atol then ⟨s, 1, true, res⟩
    else
      let lhs := jacobianNF m fac invdt
      let dy := solve lhs res
      let s' : GAState n := ⟨vecAdd s.yaf dy, vecAdd s.ydotam (vecScale dy (fac.mul invdt))⟩
      let r := newtonLoop assemble solve fac invdt atol k s'
      ⟨r.state, r.iters + 1, r.converged, if r.iters = 0 then res else r.lastRes⟩

/-- The integrator object fields relevant to `step`
(`GeneralizedAlpha.__init__` stores `alpha_m`, `alpha_f`, `gamma`,
`fac`, `time_step_size`, `time_step_size_inv = 1/time_step_size`,
`atol`, `max_iter` and the chosen linear solver). -/
structure GAIntegrator (n : ℕ) where
  alpha_m : NF
  alpha_f : NF
  gamma : NF
  fac : NF
  time_step_size : NF
  time_step_size_inv : NF
  atol : NF
  max_iter : ℕ
  solve : MatN n → Vec n → Vec n

/-- The result of `GeneralizedAlpha.step`: the corrected pair
`(curr_y, curr_ydot)` plus whether the non-convergence message was
printed (`iter == self.max_iter - 1` after the loop). -/
structure GAStepResult (n : ℕ) where
  y : Vec n
  ydot : Vec n
  reported : Bool

/-- The predictor and intermediate state at the top of
`GeneralizedAlpha.step`:
`curr_y = y + 0.5 * dt * ydot`, `curr_ydot = ydot * ((gamma - 0.5)/gamma)`,
`yaf = y + alpha_f * (curr_y - y)`, `ydotam = ydot + alpha_m * (curr_ydot - ydot)`. -/
def gaInitState {n : ℕ} (g : GAIntegrator n) (y ydot : Vec n) : GAState n :=
  let curr_y := vecAdd y (vecScale ydot ((NF.val (1/2)).mul g.time_step_size))
  let curr_ydot := vecScale ydot ((g.gamma.sub (NF.val (1/2))).div g.gamma)
  ⟨vecAdd y (vecScale (vecSub curr_y y) g.alpha_f),
   vecAdd ydot (vecScale (vecSub curr_ydot ydot) g.alpha_m)⟩

/-- `GeneralizedAlpha.step(y, ydot, time, block_list)`.  The method
first calls `update_time(time + alpha_f * dt)` on every block, which
together with the per-iteration `update_solution`/`assemble` is
abstracted into the oracle `assemble`.  It contains no raise statement:
it always returns the corrected pair
`curr_y = y + (yaf - y) / alpha_f`, `curr_ydot = ydot + (ydotam - ydot) / alpha_m`,
printing (not raising) a message when the iteration cap was reached.
The embedding assumes `max_iter >= 1` (with `max_iter = 0` the source
would hit an unbound local `iter`; the default is 30). -/
def gaStep {n : ℕ} (g : GAIntegrator n) (assemble : Vec n → SysMats n)
    (y ydot : Vec n) : GAStepResult n :=
  let r := newtonLoop assemble g.solve g.fac g.time_step_size_inv g.atol
    g.max_iter (gaInitState g y ydot)
  { y := vecAdd y (vecDivS (vecSub r.state.yaf y) g.alpha_f),
    ydot := vecAdd ydot (vecDivS (vecSub r.state.ydotam ydot) g.alpha_m),
    reported := decide (r.iters = g.max_iter) }

/-! ### Legacy integrator (`svzerodsolver/time_integration.py`) -/

/-- Loop-carried state of `GenAlpha.step`: `yaf`, `ydotam` and the
persistent residual field `self.res` (initialized to zeros in
`GenAlpha.__init__` and kept across iterations and steps). -/
structure TIState (n : ℕ) where
  yaf : Vec n
  ydotam : Vec n
  res : Vec n

/-- The `while`-condition of `GenAlpha.step`:
`(np.abs(self.res).max() > 5e-4 or iit == 0) and iit < nit`. -/
def tiCond {n : ℕ} (res : Vec n) (iit nit : ℕ) : Bool :=
  ((vecAbsMax res).gtB (NF.val (5/10000)) || decide (iit = 0)) && decide (iit < nit)

/-- The Newton loop of `GenAlpha.step` (`time_integration.py`).  Each
iteration assembles (abstracted by the oracle `assemble`), computes the
residual (`form_rhs_NR`) and matrix (`form_matrix_NR`), solves for the
increment, updates `yaf`/`ydotam`, and then raises
`RuntimeError("Solution nan")` if any residual entry is NaN.  The
optional finite-difference Jacobian check only prints and is omitted.
Fuel starts at `nit` so that `fuel = nit - iit` throughout; the fuel-0
case is unreachable because the condition requires `iit < nit`. -/
def tiLoop {n : ℕ} (assemble : Vec n → SysMats n)
    (solver : MatN n → Vec n → Vec n) (fac invdt : NF) (nit : ℕ) :
    ℕ → ℕ → TIState n → Except String (TIState n × ℕ)
  | 0, iit, s => Except.ok (s, iit)
  | fuel + 1, iit, s =>
    if tiCond s.res iit nit then
      let m := assemble s.yaf
      let res := residualNF m s.yaf s.ydotam
      let lhs := jacobianNF m fac invdt
      let dy := solver lhs res
      let yaf := vecAdd s.yaf dy
      let ydotam := vecAdd s.ydotam (vecScale dy (fac.mul invdt))
      if vecHasNaN res then Except.error "Solution nan"
      else tiLoop assemble solver fac invdt nit fuel (iit + 1) ⟨yaf, ydotam, res⟩
    else Except.ok (s, iit)

/-- `GenAlpha.step(y, ydot, t, block_list, args, dt, nit)` from
`time_integration.py`.  `res0` is the persistent `self.res` entering the
step.  Unlike `GeneralizedAlpha.step` in `algebra.py`, this method can
abort: it raises `RuntimeError("Solution nan")` from inside the Newton
loop whenever the freshly computed residual has a NaN entry. -/
def tiStep {n : ℕ} (assemble : Vec n → SysMats n)
    (solver : MatN n → Vec n → Vec n) (alpha_m alpha_f gamma fac : NF)
    (dt : NF) (nit : ℕ) (y ydot res0 : Vec n) : Except String (Vec n × Vec n) :=
  let curr_y := vecAdd y (vecScale ydot ((NF.val (1/2)).mul dt))
  let curr_ydot := vecScale ydot ((gamma.sub (NF.val (1/2))).div gamma)
  let yaf := vecAdd y (vecScale (vecSub curr_y y) alpha_f)
  let ydotam := vecAdd ydot (vecScale (vecSub curr_ydot ydot) alpha_m)
  let invdt := (NF.val 1).div dt
  match tiLoop assemble solver fac invdt nit nit 0 ⟨yaf, ydotam, res0⟩ with
  | Except.error e => Except.error e
  | Except.ok (s, _) =>
    Except.ok (vecAdd y (vecDivS (vecSub s.yaf y) alpha_f),
               vecAdd ydot (vecDivS (vecSub s.ydotam ydot) alpha_m))

/-! ### JSON-like configuration values (`dict` entries of `bc_values` etc.) -/

/-- A configuration value: a float or a list of floats. -/
inductive JVal where
  | num : ℚ → JVal
  | arr : List ℚ → JVal
deriving DecidableEq

/-- A Python `dict` with string keys, as an insertion-ordered
association list (JSON configuration dictionaries have unique keys). -/
abbrev JDict := List (String × JVal)

/-- Dictionary lookup `d[k]` (first matching key). -/
def jdLookup : JDict → String → Option JVal
  | [], _ => none
  | (k, v) :: d, key => if k = key then some v else jdLookup d key

/-- Membership test `k in d`. -/
def jdHas (d : JDict) (key : String) : Bool := (jdLookup d key).isSome

/-- Dictionary assignment `d[k] = v`: overwrite in place, else append. -/
def jdSet : JDict → String → JVal → JDict
  | [], key, v => [(key, v)]
  | (k, w) :: d, key, v =>
    if k = key then (k, v) :: d else (k, w) :: jdSet d key v

/-- Dictionary deletion `del d[k]`; `none` models the `KeyError` raised
when the key is absent. -/
def jdDel : JDict → String → Option JDict
  | [], _ => none
  | (k, w) :: d, key =>
    if k = key then some d else (jdDel d key).map (fun r => (k, w) :: r)

/-- `np.mean` of a configuration value: a scalar is its own mean, an
array is summed and divided by its length.  (`np.mean` of an empty
array is NaN; this embedding returns `0` there and is only ever used
under a nonemptiness hypothesis.) -/
def npMean : JVal → ℚ
  | JVal.num q => q
  | JVal.arr l => l.sum / l.length

/-! ### Configuration records (`parameters` dictionary) -/

/-- One entry of `parameters["boundary_conditions"]`. -/
structure BCConfig where
  bc_name : String
  bc_type : String
  bc_values : JDict
deriving DecidableEq

/-- One entry of `parameters["junctions"]`. -/
structure JunctionConfig where
  junction_name : String
  junction_type : String
  inlet_vessels : List ℕ
  outlet_vessels : List ℕ
deriving DecidableEq

/-- One entry of `parameters["vessels"]`; `bc_inlet`/`bc_outlet` model
the optional `boundary_conditions` sub-dictionary. -/
structure VesselConfig where
  vessel_id : ℕ
  zero_d_element_type : String
  bc_inlet : Option String
  bc_outlet : Option String
deriving DecidableEq

/-- The configuration consumed by `utils.py`. -/
structure SolverConfig where
  simulation_parameters : JDict
  boundary_conditions : List BCConfig
  vessels : List VesselConfig
  junctions : List JunctionConfig
deriving DecidableEq

/-! ### `utils.convert_unsteady_bcs_to_steady` -/

/-- The dictionary `bc_identifiers = {"FLOW": "Q", "PRESSURE": "P",
"CORONARY": "Pim"}` as a lookup. -/
def bcIdentifierFor (t : String) : Option String :=
  if t = "FLOW" then some "Q"
  else if t = "PRESSURE" then some "P"
  else if t = "CORONARY" then some "Pim" else none

/-- The per-boundary-condition body of the loop in
`convert_unsteady_bcs_to_steady`: for FLOW/PRESSURE/CORONARY read the
identified value, delete the `"t"` entry (KeyError, hence `none`, when
absent) and overwrite the identified entry with its `np.mean`; for RCR
set `C = 0.0`.  `none` models an uncaught exception. -/
def convertSteadyBC (bc : BCConfig) : Option BCConfig :=
  let step1 : Option BCConfig :=
    match bcIdentifierFor bc.bc_type with
    | none => some bc
    | some ident =>
      match jdLookup bc.bc_values ident with
      | none => none
      | some v =>
        match jdDel bc.bc_values "t" with
        | none => none
        | some d => some { bc with bc_values := jdSet d ident (JVal.num (npMean v)) }
  match step1 with
  | none => none
  | some bc1 =>
    if bc.bc_type = "RCR" then
      some { bc1 with bc_values := jdSet bc1.bc_values "C" (JVal.num 0) }
    else some bc1

/-- Apply a fallible transform to every element of a list, failing as
a whole when one application fails (the loop
`for i, bc in enumerate(parameters["boundary_conditions"])` writes
each rewritten entry back at index `i`, so it is a pointwise map). -/
def listMapOption {α β : Type} (f : α → Option β) : List α → Option (List β)
  | [] => some []
  | a :: l =>
    match f a with
    | none => none
    | some b =>
      match listMapOption f l with
      | none => none
      | some l' => some (b :: l')

/-- `utils.convert_unsteady_bcs_to_steady(parameters)`: deep-copy the
configuration (the embedding is pure, so the argument is untouched by
construction), set `number_of_time_pts_per_cardiac_cycle = 11` and
`number_of_cardiac_cycles = 3`, and rewrite every boundary condition
with `convertSteadyBC`.  `none` models an uncaught `KeyError`. -/
def convertUnsteadyBcsToSteady (cfg : SolverConfig) : Option SolverConfig :=
  let sp := jdSet (jdSet cfg.simulation_parameters
    "number_of_time_pts_per_cardiac_cycle" (JVal.num 11))
    "number_of_cardiac_cycles" (JVal.num 3)
  (listMapOption convertSteadyBC cfg.boundary_conditions).map fun bcs =>
    { cfg with simulation_parameters := sp, boundary_conditions := bcs }

/-! ### `Junction.from_config` (`model/junction.py`) -/

/-- `Junction.from_config`: the source condition is
`if not name.startswith("J") and not name[1].isnumeric(): raise`.
Short-circuit: a name starting with `"J"` is accepted without looking
at `name[1]`; otherwise `name[1]` is read (an `IndexError` for strings
shorter than 2) and the `ValueError` fires only when it is not a
digit. -/
def junctionFromConfig (j : JunctionConfig) : Except String String :=
  if j.junction_name.data.headD ' ' = 'J' then Except.ok j.junction_name
  else
    match j.junction_name.data.get? 1 with
    | none => Except.error "IndexError: string index out of range"
    | some c =>
      if ¬ c.isDigit then
        Except.error ("Invalid junction name " ++ j.junction_name
          ++ ". Junction names must start with J following by a number.")
      else Except.ok j.junction_name

/-! ### `utils.create_blocks` (block names and their order) -/

/-- Vessel block name, `"V" + str(config["vessel_id"])`
(`BloodVessel.from_config`). -/
def vesselBlockName (vid : ℕ) : String := "V" ++ toString vid

/-- Boundary-condition block name,
`"BC" + str(vessel_id) + "_" + location` (`create_vessel_blocks`). -/
def bcBlockName (vid : ℕ) (location : String) : String :=
  "BC" ++ toString vid ++ "_" ++ location

/-- `utils.create_junction_blocks`, tracking the insertion-ordered
keys of `block_dict` and the emitted connections.  Unknown junction
types, invalid names and duplicate names raise. -/
def createJunctionBlocks :
    List JunctionConfig → List String → List (String × String) →
    Except String (List String × List (String × String))
  | [], names, conns => Except.ok (names, conns)
  | j :: rest, names, conns =>
    if j.junction_type = "NORMAL_JUNCTION" ∨ j.junction_type = "internal_junction" then
      match junctionFromConfig j with
      | Except.error e => Except.error e
      | Except.ok name =>
        let conns := conns
          ++ (j.inlet_vessels.map fun vid => (vesselBlockName vid, name))
          ++ (j.outlet_vessels.map fun vid => (name, vesselBlockName vid))
        if name ∈ names then
          Except.error ("Junction " ++ name ++ " already exists.")
        else createJunctionBlocks rest (names ++ [name]) conns
    else Except.error ("Unknown junction type: " ++ j.junction_type)

/-- Look up a boundary condition by `bc_name`
(the `for config in parameters["boundary_conditions"]` search in
`create_vessel_blocks`; `none` models the stale/unbound `bc_config`
the source is left with when no entry matches). -/
def findBC : List BCConfig → String → Option BCConfig
  | [], _ => none
  | bc :: rest, nm => if bc.bc_name = nm then some bc else findBC rest nm

/-- The cardiac-cycle-period consistency check of `create_vessel_blocks`
for one referenced boundary condition, threading the mutated
`parameters["simulation_parameters"]` dictionary: when `bc_values`
carries a time sequence of length at least 2, its period
`t[-1] - t[0]` must agree with a previously recorded
`cardiac_cycle_period`, which is recorded if absent.  A scalar `"t"`
makes `len(...)` raise a `TypeError`. -/
def periodCheck (sp : JDict) (bc : BCConfig) : Except String JDict :=
  match jdLookup bc.bc_values "t" with
  | some (JVal.arr l) =>
    if 2 ≤ l.length then
      let period := l.getLastD 0 - l.headD 0
      match jdLookup sp "cardiac_cycle_period" with
      | some (JVal.num p) =>
        if period ≠ p then
          Except.error "The time series of the boundary condition does not have the same cardiac cycle period as the other boundary conditions."
        else Except.ok sp
      | some (JVal.arr _) =>
        Except.error "The time series of the boundary condition does not have the same cardiac cycle period as the other boundary conditions."
      | none => Except.ok (jdSet sp "cardiac_cycle_period" (JVal.num period))
    else Except.ok sp
  | some (JVal.num _) => Except.error "TypeError: object of type float has no len()"
  | none => Except.ok sp

/-- The coefficient keys each boundary-condition constructor
interpolates when they hold sequences (`RESISTANCE`: `R`, `Pd`;
`RCR`: `Rp`, `C`, `Rd`, `Pd`; `FLOW`: `Q`; `PRESSURE`: `P`;
`CORONARY`: `Pim`, `P_v`), or `none` for an unknown type
(`NotImplementedError` in `create_vessel_blocks`). -/
def bcCoefficientKeys : String → Option (List String)
  | "RESISTANCE" => some ["R", "Pd"]
  | "RCR" => some ["Rp", "C", "Rd", "Pd"]
  | "FLOW" => some ["Q"]
  | "PRESSURE" => some ["P"]
  | "CORONARY" => some ["Pim", "P_v"]
  | _ => none

/-- The keys `OpenLoopCoronaryBC.from_config` reads by direct indexing
and multiplies as scalars. -/
def coronaryScalarKeys : List String := ["Ra1", "Ca", "Ra2", "Cc", "Rv1"]

/-- Whether instantiating the boundary-condition block of this type
succeeds: every coefficient key must be present (a missing key makes
the constructor arithmetic or indexing raise), a sequence-valued
coefficient requires a `"t"` entry for `Block._interpolate`, and the
purely scalar coronary parameters must be scalars. -/
def bcCtorCheck (bc : BCConfig) : Except String String :=
  match bcCoefficientKeys bc.bc_type with
  | none => Except.error "NotImplementedError"
  | some ks =>
    if ks.all (fun k => (jdLookup bc.bc_values k).isSome)
        && (bc.bc_type ≠ "CORONARY"
            || coronaryScalarKeys.all (fun k =>
                match jdLookup bc.bc_values k with
                | some (JVal.num _) => true
                | _ => false)) then
      if ks.all (fun k =>
          match jdLookup bc.bc_values k with
          | some (JVal.arr _) => jdHas bc.bc_values "t"
          | _ => true) then
        Except.ok bc.bc_type
      else Except.error "ValueError: No time sequence provided for interpolation."
    else Except.error "TypeError: missing boundary condition value"
  
/-- Process the boundary conditions of one vessel in
`create_vessel_blocks`: for each present location (`"inlet"` then
`"outlet"`), look up the referenced boundary condition, run the
cardiac-cycle-period bookkeeping, instantiate the block and insert
its name into `block_dict` (a plain dictionary assignment: overwrite,
no duplicate check). -/
def vesselBCs (bcs : List BCConfig) (vid : ℕ) :
    List (String × String) → List String → JDict →
    Except String (List String × JDict)
  | [], names, sp => Except.ok (names, sp)
  | (location, bcname) :: rest, names, sp =>
    match findBC bcs bcname with
    | none => Except.error "NameError: bc_config is not defined"
    | some bc =>
      match periodCheck sp bc with
      | Except.error e => Except.error e
      | Except.ok sp =>
        match bcCtorCheck bc with
        | Except.error e => Except.error e
        | Except.ok _ =>
          let nm := bcBlockName vid location
          let names := if nm ∈ names then names else names ++ [nm]
          vesselBCs bcs vid rest names sp

/-- The locations list
`[loc for loc in ("inlet", "outlet") if loc in vessel_config["boundary_conditions"]]`
paired with the referenced boundary-condition names. -/
def vesselLocations (v : VesselConfig) : List (String × String) :=
  (match v.bc_inlet with
   | some nm => [("inlet", nm)]
   | none => []) ++
  (match v.bc_outlet with
   | some nm => [("outlet", nm)]
   | none => [])

/-- `utils.create_vessel_blocks`, tracking the insertion-ordered keys
of `block_dict`, the emitted connections, and the mutated simulation
parameters.  Non-`BloodVessel` element types and duplicate vessel
names raise. -/
def createVesselBlocks (bcs : List BCConfig) :
    List VesselConfig → List String → List (String × String) → JDict →
    Except String (List String × List (String × String) × JDict)
  | [], names, conns, sp => Except.ok (names, conns, sp)
  | v :: rest, names, conns, sp =>
    if v.zero_d_element_type = "BloodVessel" then
      let name := vesselBlockName v.vessel_id
      let conns := conns
        ++ (match v.bc_inlet with
            | some _ => [(bcBlockName v.vessel_id "inlet", name)]
            | none => [])
        ++ (match v.bc_outlet with
            | some _ => [(name, bcBlockName v.vessel_id "outlet")]
            | none => [])
      if name ∈ names then Except.error ("Vessel " ++ name ++ " already exists.")
      else
        match vesselBCs bcs v.vessel_id (vesselLocations v) (names ++ [name]) sp with
        | Except.error e => Except.error e
        | Except.ok (names, sp) => createVesselBlocks bcs rest names conns sp
    else Except.error "NotImplementedError"

/-- Python dict union `junction_blocks | vessel_blocks` on the
insertion-ordered key lists: keys of the left dict first, then the
keys of the right dict that are not in the left, in their order. -/
def dictUnionKeys (a b : List String) : List String :=
  a ++ b.filter (fun k => k ∉ a)

/-- `utils.create_blocks(parameters)`, reduced to the insertion-ordered
list of block names it returns (`list(all_blocks.values())`).  Node
creation requires both endpoints of every connection to name existing
blocks (`all_blocks[ele1_name]` raises a `KeyError` otherwise).  The
`block.setup_dofs` loop then mutates only the blocks and the DOF
handler, never `all_blocks`, so it cannot change the returned order,
but it can raise: a junction whose configuration lists no inlet or
outlet vessels receives no nodes, so `Junction.setup_dofs` builds a
`0 x 0` local `F` and the write `F[-1, 1::2] = []` raises an
`IndexError` (index `-1` on an axis of size 0); a junction's node
count is the number of connections naming it, i.e.
`len(inlet_vessels) + len(outlet_vessels)`.  No other block's
`setup_dofs` can fail: the non-junction local matrices have fixed
shapes and the base implementation only registers IDs. -/
def createBlocks (cfg : SolverConfig) : Except String (List String) :=
  match createJunctionBlocks cfg.junctions [] [] with
  | Except.error e => Except.error e
  | Except.ok (jnames, jconns) =>
    match createVesselBlocks cfg.boundary_conditions cfg.vessels [] [] cfg.simulation_parameters with
    | Except.error e => Except.error e
    | Except.ok (vnames, vconns, _) =>
      let allNames := dictUnionKeys jnames vnames
      if (jconns ++ vconns).all
          (fun c => c.1 ∈ allNames && c.2 ∈ allNames) then
        if cfg.junctions.all
            (fun j => 0 < j.inlet_vessels.length + j.outlet_vessels.length) then
          Except.ok allNames
        else
          Except.error "IndexError: index -1 is out of bounds for axis 0 with size 0"
      else Except.error "KeyError: connection endpoint is not a block"

/-- The block order stated by the amended claim: junction blocks in
configuration order, then for each vessel in configuration order the
vessel block followed by its boundary-condition blocks (inlet before
outlet).  This definition follows the amended specification wording
and is compared with `createBlocks` in the claim theorem. -/
def insertionOrderNames (cfg : SolverConfig) : List String :=
  cfg.junctions.map (fun j => j.junction_name)
    ++ cfg.vessels.flatMap (fun v =>
      vesselBlockName v.vessel_id
        :: (vesselLocations v).map (fun lb => bcBlockName v.vessel_id lb.1))

/-- Lexicographic comparison of strings by code point (the order
Python's `sorted` uses on `str`). -/
def charListLe : List Char → List Char → Bool
  | [], _ => true
  | _ :: _, [] => false
  | c :: cs, d :: ds =>
    if c.toNat < d.toNat then true
    else if d.toNat < c.toNat then false
    else charListLe cs ds

/-- String comparison by code points. -/
def strLeB (a b : String) : Bool := charListLe a.data b.data

/-- Insertion into a sorted list of names. -/
def insertSorted (s : String) : List String → List String
  | [] => [s]
  | x :: xs => if strLeB s x then s :: x :: xs else x :: insertSorted s xs

/-- `sorted` on a list of names. -/
def sortNames (l : List String) : List String := l.foldr insertSorted []

/-- The block order stated by the original claim: all junction names
sorted, then all vessel names sorted, then all boundary-condition
names sorted.  Used by the counterexample. -/
def sortedGroupNames (cfg : SolverConfig) : List String :=
  sortNames (cfg.junctions.map (fun j => j.junction_name))
    ++ sortNames (cfg.vessels.map (fun v => vesselBlockName v.vessel_id))
    ++ sortNames (cfg.vessels.flatMap (fun v =>
        (vesselLocations v).map (fun lb => bcBlockName v.vessel_id lb.1)))

/-! ### `Junction.setup_dofs` local `F` matrix (`model/junction.py`) -/

/-- Write one entry of an (unbounded-index) rational matrix. -/
def mset (M : ℕ → ℕ → ℚ) (i j : ℕ) (v : ℚ) : ℕ → ℕ → ℚ :=
  fun a b => if a = i ∧ b = j then v else M a b

/-- Number of equations a junction registers:
`self._NUM_EQUATIONS = num_inlets + num_outlets`. -/
def junctionNumEquations (nIn nOut : ℕ) : ℕ := nIn + nOut

/-- The junction's local `F` matrix as built by `Junction.setup_dofs`:
start from `np.zeros((neq, neq * 2))`; for each
`i in range(neq - 1)` write `F[i, 0] = 1` and `F[i, 2 * i + 2] = -1`;
then write the last row `F[-1, 1::2] = [1] * num_inlets + [-1] * num_outlets`,
element by element in column order.  Only indices
`i < neq`, `j < 2 * neq` are meaningful.  (`setup_dofs` of a junction
with zero nodes would fail on the `[-1]` row index; the claims assume
at least one node.) -/
def junctionF (nIn nOut : ℕ) : ℕ → ℕ → ℚ :=
  let neq := junctionNumEquations nIn nOut
  let F0 : ℕ → ℕ → ℚ := fun _ _ => 0
  let F1 := (List.range (neq - 1)).foldl
    (fun M i => mset (mset M i 0 1) i (2 * i + 2) (-1)) F0
  (List.range neq).foldl
    (fun M k => mset M (neq - 1) (2 * k + 1) (if k < nIn then 1 else -1)) F1

/-- `Junction` defines no `update_time`; the inherited
`Block.update_time` is `pass`, leaving the local matrices untouched. -/
def junctionUpdateTime (_time : ℚ) (F : ℕ → ℕ → ℚ) : ℕ → ℕ → ℚ := F

/-- `Junction` defines no `update_solution`; the inherited
`Block.update_solution` is `pass`. -/
def junctionUpdateSolution (_y : List ℚ) (F : ℕ → ℕ → ℚ) : ℕ → ℕ → ℚ := F

/-! ### `ResistanceBC` (`model/resistancebc.py`) -/

/-- A boundary-condition coefficient: a scalar float, or a `(time,
value)`-sequence (the `isinstance(..., Sequence)` distinction). -/
inductive Coef where
  | scalar : ℚ → Coef
  | seq : List ℚ → Coef
deriving DecidableEq

/-- Whether a coefficient is a `Sequence`. -/
def Coef.isSeq : Coef → Bool
  | Coef.scalar _ => false
  | Coef.seq _ => true

/-- The state of a `ResistanceBC` instance: the local row
`_mat["F"] = [[f00, f01]]` over columns `(P_in, Q_in)`, the constant
vector `_vec["C"] = [c0]`, and the optional interpolants `_r_func`,
`_pd_func`. -/
structure ResistanceBCBlock where
  f00 : ℚ
  f01 : ℚ
  c0 : ℚ
  rFunc : Option (ℚ → ℚ)
  pdFunc : Option (ℚ → ℚ)

/-- `Block._interpolate(times, values)`: raises a `ValueError` when
`times is None`, otherwise returns a periodic cubic spline through the
knots.  The spline itself is external (scipy); it is abstracted by the
oracle `interp`. -/
def blockInterpolate (interp : List ℚ → List ℚ → ℚ → ℚ)
    (times : Option (List ℚ)) (values : List ℚ) : Option (ℚ → ℚ) :=
  match times with
  | none => none
  | some ts => some (interp ts values)

/-- `ResistanceBC.__init__` with `params = {time, R, Pd}`: a sequence
coefficient is interpolated (placing `0` in the coefficient slot), a
scalar coefficient is written directly (`F = [[1, -R]]`,
`C = [-Pd]`).  `none` models the `ValueError` of `_interpolate` when a
sequence is given without times.  When both coefficients are scalar
the method `update_time` is rebound to the no-op parent
implementation, which `resistanceUpdateTime` below recovers from
`rFunc`/`pdFunc` both being `none`. -/
def mkResistanceBC (interp : List ℚ → List ℚ → ℚ → ℚ)
    (time : Option (List ℚ)) (r pd : Coef) : Option ResistanceBCBlock :=
  match r with
  | Coef.seq lr =>
    match blockInterpolate interp time lr with
    | none => none
    | some rf =>
      match pd with
      | Coef.seq lp =>
        match blockInterpolate interp time lp with
        | none => none
        | some pdf => some ⟨1, 0, 0, some rf, some pdf⟩
      | Coef.scalar pdq => some ⟨1, 0, -pdq, some rf, none⟩
  | Coef.scalar rq =>
    match pd with
    | Coef.seq lp =>
      match blockInterpolate interp time lp with
      | none => none
      | some pdf => some ⟨1, -rq, 0, none, some pdf⟩
    | Coef.scalar pdq => some ⟨1, -rq, -pdq, none, none⟩

/-- `ResistanceBC.update_time(time)`: when both interpolants are
absent this is the rebound no-op parent method; otherwise the source
evaluates `self._r_func(time)` and then `self._pd_func(time)`, so a
missing interpolant of a scalar coefficient is invoked as `None` and
raises a `TypeError`, modelled by `none`. -/
def resistanceUpdateTime (b : ResistanceBCBlock) (t : ℚ) :
    Option ResistanceBCBlock :=
  if b.rFunc.isNone && b.pdFunc.isNone then some b
  else
    match b.rFunc with
    | none => none
    | some rf =>
      match b.pdFunc with
      | none => none
      | some pdf => some { b with f01 := -(rf t), c0 := -(pdf t) }

/-! ### `WindkesselBC` (`model/windkesselbc.py`) -/

/-- The state of a `WindkesselBC` instance: local matrices
`_mat["E"]`, `_mat["F"]` of shape 2 x 3 over columns
`(P_in, Q_in, P_proximal)`, the constant vector `_vec["C"]` of length
2, and the optional interpolants. -/
structure WindkesselBCBlock where
  matE : Fin 2 → Fin 3 → ℚ
  matF : Fin 2 → Fin 3 → ℚ
  vecC : Fin 2 → ℚ
  rpFunc : Option (ℚ → ℚ)
  cFunc : Option (ℚ → ℚ)
  rdFunc : Option (ℚ → ℚ)
  pdFunc : Option (ℚ → ℚ)

/-- The constant part of the local matrices written at the top of
`WindkesselBC.__init__`: `E = np.zeros((2, 3))`,
`F = [[1, 0, -1], [0, 0, -1]]`, `C = [0, 0]`. -/
def windkesselE0 : Fin 2 → Fin 3 → ℚ := fun _ _ => 0

def windkesselF0 : Fin 2 → Fin 3 → ℚ :=
  fun i j => if i = 0 ∧ j = 0 then 1 else if j = 2 then -1 else 0

def windkesselC0 : Fin 2 → ℚ := fun _ => 0

/-- Interpolant of one windkessel coefficient: `none` inner value for
a scalar, interpolation for a sequence (failing without times). -/
def windkesselCoefFunc (interp : List ℚ → List ℚ → ℚ → ℚ)
    (time : Option (List ℚ)) : Coef → Option (Option (ℚ → ℚ))
  | Coef.scalar _ => some none
  | Coef.seq l =>
    match blockInterpolate interp time l with
    | none => none
    | some f => some (some f)

/-- Scalar value of a coefficient (meaningful only in the all-scalar
branch, where every coefficient is a scalar). -/
def Coef.scalarVal : Coef → ℚ
  | Coef.scalar q => q
  | Coef.seq _ => 0

/-- `WindkesselBC.__init__` with `params = {time, Rp, C, Rd, Pd}`:
interpolants are created for sequence coefficients; only when all four
coefficients are scalar does the constructor write
`E[1, 2] = -Rd * C`, `F[0, 1] = -Rp`, `F[1, 1] = Rd`, `C[1] = Pd` and
rebind `update_time` to the no-op parent method.  In every other case
the scalar coefficients are never written into the local
contributions. -/
def mkWindkesselBC (interp : List ℚ → List ℚ → ℚ → ℚ)
    (time : Option (List ℚ)) (rp c rd pd : Coef) : Option WindkesselBCBlock :=
  match windkesselCoefFunc interp time rp with
  | none => none
  | some rpf =>
    match windkesselCoefFunc interp time c with
    | none => none
    | some cf =>
      match windkesselCoefFunc interp time rd with
      | none => none
      | some rdf =>
        match windkesselCoefFunc interp time pd with
        | none => none
        | some pdf =>
          if rpf.isNone && cf.isNone && rdf.isNone && pdf.isNone then
            some ⟨fun i j => if i = 1 ∧ j = 2 then -(rd.scalarVal * c.scalarVal) else windkesselE0 i j,
                  fun i j => if i = 0 ∧ j = 1 then -rp.scalarVal
                    else if i = 1 ∧ j = 1 then rd.scalarVal else windkesselF0 i j,
                  fun i => if i = 1 then pd.scalarVal else windkesselC0 i,
                  rpf, cf, rdf, pdf⟩
          else some ⟨windkesselE0, windkesselF0, windkesselC0, rpf, cf, rdf, pdf⟩

/-- `WindkesselBC.update_time(time)`: a no-op when all four
interpolants are absent (the rebound parent method); otherwise the
source evaluates `self._rd_func(time)`, `self._c_func(time)`,
`self._rp_func(time)` and `self._pd_func(time)` in that order, so any
missing interpolant raises a `TypeError` (`none`).  On success it
writes `E[1, 2] = -rd_t * c(t)`, `F[0, 1] = -rp(t)`, `F[1, 1] = rd_t`,
`C[1] = pd(t)`. -/
def windkesselUpdateTime (b : WindkesselBCBlock) (t : ℚ) :
    Option WindkesselBCBlock :=
  if b.rpFunc.isNone && b.cFunc.isNone && b.rdFunc.isNone && b.pdFunc.isNone then
    some b
  else
    match b.rdFunc with
    | none => none
    | some rdf =>
      match b.cFunc with
      | none => none
      | some cf =>
        match b.rpFunc with
        | none => none
        | some rpf =>
          match b.pdFunc with
          | none => none
          | some pdf =>
            let rdt := rdf t
            some { b with
              matE := fun i j => if i = 1 ∧ j = 2 then -rdt * cf t else b.matE i j,
              matF := fun i j => if i = 0 ∧ j = 1 then -(rpf t)
                else if i = 1 ∧ j = 1 then rdt else b.matF i j,
              vecC := fun i => if i = 1 then pdf t else b.vecC i }

/-! ## Theorems -/

/-! ### Generic evaluation lemmas -/

theorem foldr_val_add {α : Type} (g : α → ℚ) (l : List α) :
    l.foldr (fun j acc => (NF.val (g j)).add acc) (NF.val 0)
      = NF.val (l.foldr (fun j acc => g j + acc) 0) := by
  induction l with
  | nil => rfl
  | cons a l ih => simp only [List.foldr_cons, ih]; rfl

theorem dotNF_lift {n : ℕ} (r v : Fin n → ℚ) :
    dotNF (vecOfQ r) (vecOfQ v) = NF.val (∑ j, r j * v j) := by
  have h : dotNF (vecOfQ r) (vecOfQ v)
      = (List.finRange n).foldr (fun j acc => (NF.val (r j * v j)).add acc)
          (NF.val 0) := rfl
  rw [h, foldr_val_add, Fin.sum_univ_def]
  congr 1
  induction List.finRange n with
  | nil => rfl
  | cons a l ih => simp [List.foldr, ih]

theorem residualNF_lift {n : ℕ} (qE qF qdE qdF qdC : Fin n → Fin n → ℚ)
    (qC yq ydq : Fin n → ℚ) :
    residualNF ⟨matOfQ qE, matOfQ qF, matOfQ qdE, matOfQ qdF, matOfQ qdC, vecOfQ qC⟩
        (vecOfQ yq) (vecOfQ ydq)
      = vecOfQ (fun i => -(∑ j, qE i j * ydq j) - (∑ j, qF i j * yq j) - qC i) := by
  funext i
  show (((dotNF (vecOfQ (qE i)) (vecOfQ ydq)).neg.sub
      (dotNF (vecOfQ (qF i)) (vecOfQ yq))).sub (NF.val (qC i))) = _
  rw [dotNF_lift, dotNF_lift]
  rfl

/-! ### C8: generalized-alpha constants and solver selection -/

/-- C8: for every spectral radius the derived constants satisfy
`alpha_m = (3 - rho) / (2 (1 + rho))`, `alpha_f = 1 / (1 + rho)`,
`gamma = 1/2 + alpha_m - alpha_f` and `fac = alpha_m / (alpha_f * gamma)`,
and for every system size the Newton linear solver is the sparse direct
solver exactly when `n > 800` and dense LU otherwise. -/
theorem generalized_alpha_constants_and_solver (rho : ℚ) (n : ℕ) :
    alphaM rho = (3 - rho) / (2 * (1 + rho)) ∧
    alphaF rho = 1 / (1 + rho) ∧
    gammaGA rho = 1/2 + alphaM rho - alphaF rho ∧
    facGA rho = alphaM rho / (alphaF rho * gammaGA rho) ∧
    (solverSelect n = SolverKind.sparse ↔ 800 < n) ∧
    (solverSelect n = SolverKind.dense ↔ ¬ 800 < n) := by
  refine ⟨?_, rfl, rfl, rfl, ?_, ?_⟩
  · unfold alphaM
    rw [← div_div]
    congr 1
    ring
  · constructor
    · intro h
      by_contra hn
      simp [solverSelect, hn] at h
    · intro h
      simp [solverSelect, h]
  · constructor
    · intro h hn
      simp [solverSelect, hn] at h
    · intro h
      simp [solverSelect, h]

/-! ### C4: default tolerance of `run_integrator` -/

/-- C4 (code bug): when the optional arguments of `run_integrator` are
omitted it uses `rho = 0.1` and `max_iter = 30` as specified, but its
default `atol` is the integer expression `10 - 8 = 2` (an evident typo
for `1e-8`, which is the default of `GeneralizedAlpha.__init__` that
this value overrides).  A residual of infinity norm `1` therefore
passes the convergence test under the defaults, while under the
specified tolerance `1e-8` it would force another Newton iteration. -/
theorem run_integrator_default_atol_is_two :
    runIntegratorDefaultRho = 1/10 ∧
    runIntegratorDefaultMaxIter = 30 ∧
    runIntegratorDefaultAtol = 2 ∧
    generalizedAlphaDefaultAtol = 1/10^8 ∧
    runIntegratorDefaultAtol ≠ generalizedAlphaDefaultAtol ∧
    (vecAbsMax (fun _ : Fin 1 => NF.val 1)).leB (NF.val runIntegratorDefaultAtol) = true ∧
    (vecAbsMax (fun _ : Fin 1 => NF.val 1)).leB (NF.val generalizedAlphaDefaultAtol) = false := by
  refine ⟨rfl, rfl, by norm_num [runIntegratorDefaultAtol], rfl,
    by norm_num [runIntegratorDefaultAtol, generalizedAlphaDefaultAtol], ?_, ?_⟩
  · simp [vecAbsMax, List.finRange_succ, NF.abs, NF.maxNF, NF.leB, runIntegratorDefaultAtol]
    norm_num
  · simp [vecAbsMax, List.finRange_succ, NF.abs, NF.maxNF, NF.leB, generalizedAlphaDefaultAtol]
    norm_num

/-! ### C9: junction-name validation -/

/-- C9 (code bug): `Junction.from_config` is meant to reject any
junction name that is not `J` followed by digits (its own error
message says so), but the source condition
`not name.startswith("J") and not name[1].isnumeric()` uses `and`
where the intent requires `or`: the name `"K1"` neither starts with
`J` nor is of the form `J<digits>`, yet `from_config` accepts it
because its second character is a digit.  Names of the form
`J<digits>` are accepted as the claim states, and a rejection happens
only when the name both fails to start with `J` and has a non-digit
second character. -/
theorem junction_from_config_validation :
    junctionFromConfig ⟨"K1", "NORMAL_JUNCTION", [], []⟩ = Except.ok "K1" ∧
    ("K1").data.headD ' ' ≠ 'J' ∧ ¬ ("K1").data.all Char.isDigit ∧
    junctionFromConfig ⟨"J123", "NORMAL_JUNCTION", [], []⟩ = Except.ok "J123" ∧
    junctionFromConfig ⟨"AB", "NORMAL_JUNCTION", [], []⟩
      = Except.error ("Invalid junction name AB. Junction names must start with J following by a number.") := by
  refine ⟨rfl, by decide, by decide, rfl, rfl⟩

/-! ### C6: the ResistanceBC equation and its sign -/

/-- C6 (counterexample): for the scalar coefficients `R = 2`,
`Pd = 5`, the constructed local contributions are `F = [[1, -2]]` and
`C = [-5]`: the constant-vector entry is `-Pd`, not `+Pd` as the claim
states (so the assembled equation, in the convention
`E ydot + F y + C = 0`, is `P_in - R Q_in - Pd = 0`, not
`P_in - R Q_in + Pd = 0`). -/
theorem resistance_bc_sign_counterexample :
    mkResistanceBC (fun _ _ _ => 0) none (Coef.scalar 2) (Coef.scalar 5)
      = some ⟨1, -2, -5, none, none⟩ ∧
    ((-5 : ℚ) ≠ 5) := by
  constructor
  · rfl
  · norm_num

/-- C6 (amended): for every ResistanceBC, the single assembled
equation is `P_in - R(t) Q_in - Pd(t) = 0`: the local row over the
columns `(P_in, Q_in)` is `F = [1, -R(t)]` and the constant-vector
entry is `-Pd(t)`; for scalar coefficients this is written at
construction, for interpolated coefficients `update_time(t)` writes
`F[0, 1] = -r(t)` and `C[0] = -pd(t)`. -/
theorem resistance_bc_row (interp : List ℚ → List ℚ → ℚ → ℚ) (ts : List ℚ)
    (rq pdq t : ℚ) (lr lp : List ℚ) (b : ResistanceBCBlock) :
    mkResistanceBC interp none (Coef.scalar rq) (Coef.scalar pdq)
      = some ⟨1, -rq, -pdq, none, none⟩ ∧
    (∀ P Q : ℚ, 1 * P + (-rq) * Q + (-pdq) = P - rq * Q - pdq) ∧
    mkResistanceBC interp (some ts) (Coef.seq lr) (Coef.seq lp)
      = some ⟨1, 0, 0, some (interp ts lr), some (interp ts lp)⟩ ∧
    (∀ rf pdf : ℚ → ℚ, b.rFunc = some rf → b.pdFunc = some pdf →
      resistanceUpdateTime b t
        = some { b with f01 := -(rf t), c0 := -(pdf t) }) := by
  refine ⟨rfl, fun P Q => by ring, rfl, fun rf pdf hr hp => ?_⟩
  simp [resistanceUpdateTime, hr, hp]

/-- Witness for the conditional part of `resistance_bc_row`: a block
with both interpolants present is updated to
`F = [1, -r(t)]`, `C = [-pd(t)]`. -/
theorem resistance_bc_row_witness :
    resistanceUpdateTime ⟨1, 0, 0, some (fun s => s + 1), some (fun s => s + 2)⟩ 3
      = some ⟨1, -(3 + 1), -(3 + 2), some (fun s => s + 1), some (fun s => s + 2)⟩ :=
  (resistance_bc_row (fun _ _ _ => 0) [] 0 0 3 [] []
    ⟨1, 0, 0, some (fun s => s + 1), some (fun s => s + 2)⟩).2.2.2
    (fun s => s + 1) (fun s => s + 2) rfl rfl

/-! ### C10: mixed scalar/sequence coefficients -/

/-- C10: for a ResistanceBC in which exactly one of `R`, `Pd` is a
sequence, and for a WindkesselBC in which some but not all of `Rp`,
`C`, `Rd`, `Pd` are sequences, `update_time(t)` invokes a missing
(`None`) interpolant and raises for every `t`; `update_time` succeeds
for every `t` when all coefficients are sequences, and is the no-op
parent implementation when none is.  Moreover a mixed WindkesselBC
never writes its scalar coefficients into the local `E`, `F`, `C`
contributions at construction. -/
theorem bc_update_time_mixed_raises :
    (∀ (interp : List ℚ → List ℚ → ℚ → ℚ) (time : Option (List ℚ))
       (r pd : Coef) (b : ResistanceBCBlock), r.isSeq ≠ pd.isSeq →
       mkResistanceBC interp time r pd = some b →
       ∀ t, resistanceUpdateTime b t = none) ∧
    (∀ (interp : List ℚ → List ℚ → ℚ → ℚ) (time : Option (List ℚ))
       (rp c rd pd : Coef) (b : WindkesselBCBlock),
       (rp.isSeq || c.isSeq || rd.isSeq || pd.isSeq) = true →
       (rp.isSeq && c.isSeq && rd.isSeq && pd.isSeq) = false →
       mkWindkesselBC interp time rp c rd pd = some b →
       (∀ t, windkesselUpdateTime b t = none) ∧
       b.matE = windkesselE0 ∧ b.matF = windkesselF0 ∧ b.vecC = windkesselC0) ∧
    (∀ (interp : List ℚ → List ℚ → ℚ → ℚ) (ts : List ℚ)
       (r pd : Coef) (b : ResistanceBCBlock), r.isSeq = true → pd.isSeq = true →
       mkResistanceBC interp (some ts) r pd = some b →
       ∀ t, (resistanceUpdateTime b t).isSome = true) ∧
    (∀ (interp : List ℚ → List ℚ → ℚ → ℚ) (ts : List ℚ)
       (rp c rd pd : Coef) (b : WindkesselBCBlock),
       rp.isSeq = true → c.isSeq = true → rd.isSeq = true → pd.isSeq = true →
       mkWindkesselBC interp (some ts) rp c rd pd = some b →
       ∀ t, (windkesselUpdateTime b t).isSome = true) ∧
    (∀ (interp : List ℚ → List ℚ → ℚ → ℚ) (time : Option (List ℚ)) (rq pdq : ℚ)
       (b : ResistanceBCBlock),
       mkResistanceBC interp time (Coef.scalar rq) (Coef.scalar pdq) = some b →
       ∀ t, resistanceUpdateTime b t = some b) ∧
    (∀ (interp : List ℚ → List ℚ → ℚ → ℚ) (time : Option (List ℚ)) (q1 q2 q3 q4 : ℚ)
       (b : WindkesselBCBlock),
       mkWindkesselBC interp time (Coef.scalar q1) (Coef.scalar q2)
         (Coef.scalar q3) (Coef.scalar q4) = some b →
       ∀ t, windkesselUpdateTime b t = some b) := by
  refine ⟨?_, ?_, ?_, ?_, ?_, ?_⟩
  · intro interp time r pd b hne hmk t
    cases r <;> cases pd <;> simp [Coef.isSeq] at hne <;>
      cases time <;>
      simp [mkResistanceBC, blockInterpolate] at hmk <;>
      subst hmk <;>
      simp [resistanceUpdateTime]
  · intro interp time rp c rd pd b hsome hnotall hmk
    cases rp <;> cases c <;> cases rd <;> cases pd <;>
      simp [Coef.isSeq] at hsome hnotall <;>
      cases time <;>
      simp [mkWindkesselBC, windkesselCoefFunc, blockInterpolate] at hmk <;>
      first
        | (exact absurd hmk hnotall)
        | (subst hmk
           exact ⟨fun t => by simp [windkesselUpdateTime], rfl, rfl, rfl⟩)
  · intro interp ts r pd b hr hp hmk t
    cases r <;> cases pd <;> simp [Coef.isSeq] at hr hp
    simp [mkResistanceBC, blockInterpolate] at hmk
    subst hmk
    simp [resistanceUpdateTime]
  · intro interp ts rp c rd pd b h1 h2 h3 h4 hmk t
    cases rp <;> cases c <;> cases rd <;> cases pd <;>
      simp [Coef.isSeq] at h1 h2 h3 h4
    simp [mkWindkesselBC, windkesselCoefFunc, blockInterpolate] at hmk
    subst hmk
    simp [windkesselUpdateTime]
  · intro interp time rq pdq b hmk t
    simp [mkResistanceBC] at hmk
    subst hmk
    simp [resistanceUpdateTime]
  · intro interp time q1 q2 q3 q4 b hmk t
    simp [mkWindkesselBC, windkesselCoefFunc] at hmk
    subst hmk
    simp [windkesselUpdateTime]

/-- Witness for `bc_update_time_mixed_raises`: a ResistanceBC with a
sequence `R` and a scalar `Pd` raises on `update_time`. -/
theorem bc_update_time_mixed_raises_witness :
    resistanceUpdateTime ⟨1, 0, -2, some (fun _ => 0), none⟩ 3 = none :=
  bc_update_time_mixed_raises.1 (fun _ _ _ => 0) (some [0, 1])
    (Coef.seq [1]) (Coef.scalar 2) ⟨1, 0, -2, some (fun _ => 0), none⟩
    (by decide) rfl 3

/-! ### Dictionary lemmas -/

theorem jdLookup_set_self (d : JDict) (k : String) (v : JVal) :
    jdLookup (jdSet d k v) k = some v := by
  induction d with
  | nil => simp [jdSet, jdLookup]
  | cons p d ih =>
    obtain ⟨a, w⟩ := p
    by_cases h : a = k
    · simp [jdSet, h, jdLookup]
    · simp [jdSet, h, jdLookup, ih]

theorem jdLookup_set_other (d : JDict) (k k' : String) (v : JVal)
    (h : k' ≠ k) : jdLookup (jdSet d k v) k' = jdLookup d k' := by
  have hkk : ¬ k = k' := fun he => h he.symm
  induction d with
  | nil => simp [jdSet, jdLookup, hkk]
  | cons p d ih =>
    obtain ⟨a, w⟩ := p
    by_cases ha : a = k
    · subst ha
      simp [jdSet, jdLookup, hkk]
    · simp [jdSet, ha, jdLookup, ih]

theorem jdLookup_eq_none_of_not_mem (d : JDict) (k : String)
    (h : k ∉ d.map Prod.fst) : jdLookup d k = none := by
  induction d with
  | nil => rfl
  | cons p d ih =>
    obtain ⟨a, w⟩ := p
    simp only [List.map_cons, List.mem_cons] at h
    push_neg at h
    have ha : ¬ a = k := fun he => h.1 he.symm
    simp [jdLookup, ha, ih h.2]

theorem jdDel_isSome_of_has (d : JDict) (k : String)
    (h : jdHas d k = true) : (jdDel d k).isSome = true := by
  induction d with
  | nil => simp [jdHas, jdLookup] at h
  | cons p d ih =>
    obtain ⟨a, w⟩ := p
    by_cases ha : a = k
    · simp [jdDel, ha]
    · simp only [jdHas, jdLookup, if_neg ha] at h
      rcases Option.isSome_iff_exists.mp (ih h) with ⟨d', hd'⟩
      simp [jdDel, if_neg ha, hd']

theorem jdLookup_del_self (d : JDict) (k : String) :
    ∀ d', (d.map Prod.fst).Nodup → jdDel d k = some d' →
      jdLookup d' k = none := by
  induction d with
  | nil => intro d' _ h; simp [jdDel] at h
  | cons p d ih =>
    intro d' hnd h
    obtain ⟨a, w⟩ := p
    simp only [List.map_cons, List.nodup_cons] at hnd
    by_cases ha : a = k
    · simp only [jdDel, if_pos ha] at h
      cases h
      subst ha
      exact jdLookup_eq_none_of_not_mem _ _ hnd.1
    · simp only [jdDel, if_neg ha] at h
      rcases Option.map_eq_some'.mp h with ⟨r, hr, hrw⟩
      subst hrw
      simp [jdLookup, ha, ih r hnd.2 hr]

theorem jdLookup_del_other (d : JDict) (k k' : String) (hk : k' ≠ k) :
    ∀ d', jdDel d k = some d' → jdLookup d' k' = jdLookup d k' := by
  induction d with
  | nil => intro d' h; simp [jdDel] at h
  | cons p d ih =>
    intro d' h
    obtain ⟨a, w⟩ := p
    by_cases ha : a = k
    · simp only [jdDel, if_pos ha] at h
      cases h
      subst ha
      have : ¬ a = k' := fun he => hk (he.symm)
      simp [jdLookup, this]
    · simp only [jdDel, if_neg ha] at h
      rcases Option.map_eq_some'.mp h with ⟨r, hr, hrw⟩
      subst hrw
      by_cases ha' : a = k'
      · simp [jdLookup, ha']
      · simp [jdLookup, ha', ih r hr]

theorem listMapOption_spec {α β : Type} (f : α → Option β) (l : List α)
    (h : ∀ a ∈ l, (f a).isSome = true) :
    ∃ l', listMapOption f l = some l' ∧ l'.length = l.length ∧
      ∀ i (hi : i < l.length) (hi' : i < l'.length),
        f (l.get ⟨i, hi⟩) = some (l'.get ⟨i, hi'⟩) := by
  induction l with
  | nil => exact ⟨[], rfl, rfl, fun i hi _ => absurd hi (by simp)⟩
  | cons a l ih =>
    rcases Option.isSome_iff_exists.mp (h a (List.mem_cons_self a l)) with ⟨b, hb⟩
    rcases ih (fun x hx => h x (List.mem_cons_of_mem a hx)) with ⟨l', hl', hlen, hget⟩
    refine ⟨b :: l', ?_, by simp [hlen], ?_⟩
    · simp [listMapOption, hb, hl']
    · intro i hi hi'
      match i with
      | 0 => simpa using hb
      | i + 1 =>
        simp only [List.length_cons, Nat.add_lt_add_iff_right] at hi hi'
        simpa using hget i hi hi'

/-! ### C3: the steady-configuration transform -/

theorem bcIdentifierFor_props (t ident : String)
    (h : bcIdentifierFor t = some ident) : ident ≠ "t" ∧ t ≠ "RCR" := by
  unfold bcIdentifierFor at h
  split_ifs at h with h1 h2 h3
  · cases h; subst h1; exact ⟨by decide, by decide⟩
  · cases h; subst h2; exact ⟨by decide, by decide⟩
  · cases h; subst h3; exact ⟨by decide, by decide⟩

theorem convertSteadyBC_spec (bc : BCConfig)
    (hnd : (bc.bc_values.map Prod.fst).Nodup)
    (hkey : ∀ ident, bcIdentifierFor bc.bc_type = some ident →
      (jdLookup bc.bc_values ident).isSome = true ∧
      jdHas bc.bc_values "t" = true) :
    ∃ bc', convertSteadyBC bc = some bc' ∧ bc'.bc_name = bc.bc_name ∧
      bc'.bc_type = bc.bc_type ∧
      (∀ ident v, bcIdentifierFor bc.bc_type = some ident →
        jdLookup bc.bc_values ident = some v →
        jdLookup bc'.bc_values ident = some (JVal.num (npMean v)) ∧
        jdHas bc'.bc_values "t" = false) ∧
      (bc.bc_type = "RCR" →
        jdLookup bc'.bc_values "C" = some (JVal.num 0)) ∧
      (bcIdentifierFor bc.bc_type = none → bc.bc_type ≠ "RCR" → bc' = bc) := by
  cases hid : bcIdentifierFor bc.bc_type with
  | none =>
    by_cases hrcr : bc.bc_type = "RCR"
    · refine ⟨{ bc with bc_values := jdSet bc.bc_values "C" (JVal.num 0) },
        ?_, rfl, rfl, ?_, ?_, ?_⟩
      · simp only [convertSteadyBC]
        rw [hid]
        simp [hrcr]
      · intro ident v h
        simp at h
      · intro _
        exact jdLookup_set_self _ _ _
      · intro _ h
        exact absurd hrcr h
    · refine ⟨bc, ?_, rfl, rfl, ?_, ?_, ?_⟩
      · simp only [convertSteadyBC]
        rw [hid]
        simp [hrcr]
      · intro ident v h
        simp at h
      · intro h
        exact absurd h hrcr
      · intro _ _
        rfl
  | some ident =>
    obtain ⟨hsome, hhast⟩ := hkey ident hid
    rcases Option.isSome_iff_exists.mp hsome with ⟨v, hv⟩
    rcases Option.isSome_iff_exists.mp (jdDel_isSome_of_has _ _ hhast) with ⟨d', hd'⟩
    obtain ⟨hid_t, hid_rcr⟩ := bcIdentifierFor_props _ _ hid
    refine ⟨{ bc with bc_values := jdSet d' ident (JVal.num (npMean v)) },
      ?_, rfl, rfl, ?_, ?_, ?_⟩
    · simp only [convertSteadyBC]
      rw [hid]
      simp [hv, hd', hid_rcr]
    · intro ident' v' hid' hv'
      cases hid'
      rw [hv] at hv'
      cases hv'
      refine ⟨jdLookup_set_self _ _ _, ?_⟩
      have hsets : jdLookup (jdSet d' ident (JVal.num (npMean v))) "t"
          = jdLookup d' "t" :=
        jdLookup_set_other _ _ _ _ (fun he => hid_t he.symm)
      have hdel : jdLookup d' "t" = none :=
        jdLookup_del_self bc.bc_values "t" d' hnd hd'
      simp [jdHas, hsets, hdel]
    · intro h
      exact absurd h hid_rcr
    · intro h _
      simp at h

/-- C3 (counterexample): a configuration with a steady FLOW boundary
condition (scalar `Q`, no time array `"t"`) makes
`convert_unsteady_bcs_to_steady` raise a `KeyError` on
`del ...["t"]` instead of returning a configuration. -/
theorem convert_unsteady_counterexample :
    convertUnsteadyBcsToSteady
      ⟨[], [⟨"INFLOW", "FLOW", [("Q", JVal.num 5)]⟩], [], []⟩ = none := rfl

/-- C3 (amended): for every configuration whose FLOW/PRESSURE/CORONARY
boundary conditions carry both their quantity entry (`Q`/`P`/`Pim`)
and a time entry `"t"` (with unique keys), the transform returns a
configuration with `number_of_time_pts_per_cardiac_cycle = 11` and
`number_of_cardiac_cycles = 3`, in which every such boundary condition
has its quantity replaced by the arithmetic mean of its values and the
time entry removed, every RCR boundary condition has `C = 0`, and all
other entries are untouched; being a pure function of a deep copy, the
input configuration itself is unchanged. -/
theorem convert_unsteady_bcs_to_steady_spec (cfg : SolverConfig)
    (hnd : ∀ bc ∈ cfg.boundary_conditions, (bc.bc_values.map Prod.fst).Nodup)
    (hkeys : ∀ bc ∈ cfg.boundary_conditions, ∀ ident,
      bcIdentifierFor bc.bc_type = some ident →
      (jdLookup bc.bc_values ident).isSome = true ∧
      jdHas bc.bc_values "t" = true) :
    ∃ cfg', convertUnsteadyBcsToSteady cfg = some cfg' ∧
      jdLookup cfg'.simulation_parameters "number_of_time_pts_per_cardiac_cycle"
        = some (JVal.num 11) ∧
      jdLookup cfg'.simulation_parameters "number_of_cardiac_cycles"
        = some (JVal.num 3) ∧
      cfg'.vessels = cfg.vessels ∧ cfg'.junctions = cfg.junctions ∧
      cfg'.boundary_conditions.length = cfg.boundary_conditions.length ∧
      ∀ i (hi : i < cfg.boundary_conditions.length)
        (hi' : i < cfg'.boundary_conditions.length),
        (cfg'.boundary_conditions.get ⟨i, hi'⟩).bc_name
            = (cfg.boundary_conditions.get ⟨i, hi⟩).bc_name ∧
        (cfg'.boundary_conditions.get ⟨i, hi'⟩).bc_type
            = (cfg.boundary_conditions.get ⟨i, hi⟩).bc_type ∧
        (∀ ident v,
          bcIdentifierFor (cfg.boundary_conditions.get ⟨i, hi⟩).bc_type = some ident →
          jdLookup (cfg.boundary_conditions.get ⟨i, hi⟩).bc_values ident = some v →
          jdLookup (cfg'.boundary_conditions.get ⟨i, hi'⟩).bc_values ident
            = some (JVal.num (npMean v)) ∧
          jdHas (cfg'.boundary_conditions.get ⟨i, hi'⟩).bc_values "t" = false) ∧
        ((cfg.boundary_conditions.get ⟨i, hi⟩).bc_type = "RCR" →
          jdLookup (cfg'.boundary_conditions.get ⟨i, hi'⟩).bc_values "C"
            = some (JVal.num 0)) ∧
        (bcIdentifierFor (cfg.boundary_conditions.get ⟨i, hi⟩).bc_type = none →
          (cfg.boundary_conditions.get ⟨i, hi⟩).bc_type ≠ "RCR" →
          cfg'.boundary_conditions.get ⟨i, hi'⟩
            = cfg.boundary_conditions.get ⟨i, hi⟩) := by
  have hall : ∀ bc ∈ cfg.boundary_conditions, (convertSteadyBC bc).isSome = true := by
    intro bc hbc
    rcases convertSteadyBC_spec bc (hnd bc hbc) (hkeys bc hbc) with ⟨bc', hconv, _⟩
    simp [hconv]
  rcases listMapOption_spec convertSteadyBC cfg.boundary_conditions hall
    with ⟨bcs', hmap, hlen, hget⟩
  refine ⟨{ cfg with
      simulation_parameters := jdSet (jdSet cfg.simulation_parameters
        "number_of_time_pts_per_cardiac_cycle" (JVal.num 11))
        "number_of_cardiac_cycles" (JVal.num 3),
      boundary_conditions := bcs' }, ?_, ?_, ?_, rfl, rfl, by simpa using hlen, ?_⟩
  · simp [convertUnsteadyBcsToSteady, hmap]
  · show jdLookup (jdSet _ "number_of_cardiac_cycles" _) _ = _
    rw [jdLookup_set_other _ _ _ _ (by decide)]
    exact jdLookup_set_self _ _ _
  · exact jdLookup_set_self _ _ _
  · intro i hi hi'
    have hmem : cfg.boundary_conditions.get ⟨i, hi⟩ ∈ cfg.boundary_conditions :=
      List.get_mem _ _ _
    rcases convertSteadyBC_spec _ (hnd _ hmem) (hkeys _ hmem)
      with ⟨bc', hconv, hname, htype, hidprops, hrcr, hother⟩
    have hi'' : i < bcs'.length := by simpa using hi'
    have : some bc' = some (bcs'.get ⟨i, hi''⟩) := by
      rw [← hconv]
      exact hget i hi hi''
    cases this
    exact ⟨hname, htype, hidprops, hrcr, hother⟩

/-- Witness for `convert_unsteady_bcs_to_steady_spec`: a pulsatile
FLOW boundary condition plus an RCR boundary condition satisfy its
hypotheses and the transform succeeds. -/
theorem convert_unsteady_bcs_to_steady_spec_witness :
    ∃ cfg', convertUnsteadyBcsToSteady
        ⟨[("number_of_cardiac_cycles", JVal.num 10)],
         [⟨"INFLOW", "FLOW", [("t", JVal.arr [0, 1]), ("Q", JVal.arr [1, 3])]⟩,
          ⟨"OUT", "RCR", [("Rp", JVal.num 1), ("Rd", JVal.num 2)]⟩],
         [], []⟩ = some cfg' ∧
      jdLookup cfg'.simulation_parameters "number_of_cardiac_cycles"
        = some (JVal.num 3) := by
  rcases convert_unsteady_bcs_to_steady_spec
      ⟨[("number_of_cardiac_cycles", JVal.num 10)],
       [⟨"INFLOW", "FLOW", [("t", JVal.arr [0, 1]), ("Q", JVal.arr [1, 3])]⟩,
        ⟨"OUT", "RCR", [("Rp", JVal.num 1), ("Rd", JVal.num 2)]⟩],
       [], []⟩
      (by
        intro bc hbc
        rcases List.mem_cons.mp hbc with rfl | hbc
        · decide
        · rcases List.mem_cons.mp hbc with rfl | hbc
          · decide
          · cases hbc)
      (by
        intro bc hbc ident hident
        rcases List.mem_cons.mp hbc with rfl | hbc
        · simp [bcIdentifierFor] at hident
          subst hident
          exact ⟨by decide, by decide⟩
        · rcases List.mem_cons.mp hbc with rfl | hbc
          · simp [bcIdentifierFor] at hident
          · cases hbc)
    with ⟨cfg', hconv, _, h3, _⟩
  exact ⟨cfg', hconv, h3⟩

/-! ### C7: the junction local `F` matrix -/

theorem junctionF_pressRows (m : ℕ) (a b : ℕ) :
    ((List.range m).foldl (fun M i => mset (mset M i 0 1) i (2 * i + 2) (-1))
      (fun _ _ => (0 : ℚ))) a b
      = if a < m then (if b = 0 then 1 else if b = 2 * a + 2 then -1 else 0)
        else 0 := by
  induction m with
  | zero => simp
  | succ m ih =>
    rw [List.range_succ, List.foldl_append]
    simp only [List.foldl_cons, List.foldl_nil, mset]
    by_cases ha : a = m
    · subst ha
      by_cases hb2 : b = 2 * a + 2
      · subst hb2
        simp [(by omega : a < a + 1), (by omega : ¬ (2 * a + 2 = 0))]
      · by_cases hb0 : b = 0
        · subst hb0
          simp [(by omega : a < a + 1), (by omega : ¬ ((0 : ℕ) = 2 * a + 2))]
        · simp [hb0, hb2, ih, (by omega : a < a + 1), lt_irrefl]
    · simp only [ha, false_and, if_false]
      rw [ih]
      by_cases ham : a < m
      · rw [if_pos ham, if_pos (by omega : a < m + 1)]
      · rw [if_neg ham, if_neg (by omega : ¬ a < m + 1)]

theorem junctionF_lastRow (nIn r : ℕ) (P : ℕ → ℕ → ℚ) (m : ℕ) (a b : ℕ) :
    ((List.range m).foldl
      (fun M k => mset M r (2 * k + 1) (if k < nIn then (1 : ℚ) else -1)) P) a b
      = if a = r ∧ b % 2 = 1 ∧ b < 2 * m then (if b < 2 * nIn then 1 else -1)
        else P a b := by
  induction m with
  | zero => simp
  | succ m ih =>
    rw [List.range_succ, List.foldl_append]
    simp only [List.foldl_cons, List.foldl_nil, mset]
    by_cases har : a = r
    · subst har
      by_cases hb : b = 2 * m + 1
      · subst hb
        rw [ih]
        have h1 : (2 * m + 1) % 2 = 1 := by omega
        have h2 : 2 * m + 1 < 2 * (m + 1) := by omega
        have h3 : ¬ (2 * m + 1 < 2 * m) := by omega
        simp only [h1, h2, h3, true_and, and_true, and_false, if_true, if_false,
          eq_self_iff_true]
        by_cases hm : m < nIn
        · rw [if_pos hm, if_pos (by omega : 2 * m + 1 < 2 * nIn)]
        · rw [if_neg hm, if_neg (by omega : ¬ (2 * m + 1 < 2 * nIn))]
      · simp only [hb, and_true, and_false, if_false, true_and]
        rw [ih]
        by_cases hcond : b % 2 = 1 ∧ b < 2 * m
        · simp [hcond.1, hcond.2, (by omega : b < 2 * (m + 1))]
        · by_cases hodd : b % 2 = 1
          · have hge : ¬ (b < 2 * m) := fun hlt => hcond ⟨hodd, hlt⟩
            have hb2 : ¬ (b < 2 * (m + 1)) := by omega
            simp [hodd, hge, hb2]
          · simp [hodd]
    · simp [har, ih]

/-- C7: for every junction with `nIn` inflow and `nOut` outflow nodes,
`setup_dofs` fixes the number of equations to `nIn + nOut` and builds
the `(nIn + nOut) x 2 (nIn + nOut)` local `F` matrix with, in each of
the first `nIn + nOut - 1` rows `i`, the value `+1` at column `0`, `-1`
at column `2 i + 2` and zeros elsewhere, and in the last row `+1` at
the flow column `2 k + 1` of every inflow node and `-1` at the flow
column `2 (nIn + k) + 1` of every outflow node (zeros at the pressure
columns); the inherited `update_time`/`update_solution` are no-ops, so
`F` is never changed afterwards. -/
theorem junction_setup_dofs_f_matrix (nIn nOut : ℕ) (h : 0 < nIn + nOut) :
    junctionNumEquations nIn nOut = nIn + nOut ∧
    (∀ i, i < nIn + nOut - 1 →
      junctionF nIn nOut i 0 = 1 ∧
      junctionF nIn nOut i (2 * i + 2) = -1 ∧
      (∀ j, j < 2 * (nIn + nOut) → j ≠ 0 → j ≠ 2 * i + 2 →
        junctionF nIn nOut i j = 0)) ∧
    (∀ j, j < 2 * (nIn + nOut) →
      junctionF nIn nOut (nIn + nOut - 1) j
        = if j % 2 = 1 then (if j < 2 * nIn then 1 else -1) else 0) ∧
    (∀ k, k < nIn → junctionF nIn nOut (nIn + nOut - 1) (2 * k + 1) = 1) ∧
    (∀ k, k < nOut →
      junctionF nIn nOut (nIn + nOut - 1) (2 * (nIn + k) + 1) = -1) ∧
    (∀ (t : ℚ) (F : ℕ → ℕ → ℚ), junctionUpdateTime t F = F) ∧
    (∀ (y : List ℚ) (F : ℕ → ℕ → ℚ), junctionUpdateSolution y F = F) := by
  have hF : ∀ a b, junctionF nIn nOut a b
      = if a = nIn + nOut - 1 ∧ b % 2 = 1 ∧ b < 2 * (nIn + nOut) then
          (if b < 2 * nIn then 1 else -1)
        else if a < nIn + nOut - 1 then
          (if b = 0 then 1 else if b = 2 * a + 2 then -1 else 0)
        else 0 := by
    intro a b
    have hunf : junctionF nIn nOut
        = (List.range (junctionNumEquations nIn nOut)).foldl
            (fun M k => mset M (junctionNumEquations nIn nOut - 1) (2 * k + 1)
              (if k < nIn then (1 : ℚ) else -1))
            ((List.range (junctionNumEquations nIn nOut - 1)).foldl
              (fun M i => mset (mset M i 0 1) i (2 * i + 2) (-1))
              (fun _ _ => 0)) := rfl
    rw [hunf, junctionF_lastRow, junctionF_pressRows]
    simp only [junctionNumEquations]
  refine ⟨rfl, ?_, ?_, ?_, ?_, fun _ _ => rfl, fun _ _ => rfl⟩
  · intro i hi
    have hne : ¬ (i = nIn + nOut - 1 ∧ (0 : ℕ) % 2 = 1 ∧ 0 < 2 * (nIn + nOut)) := by
      omega
    refine ⟨?_, ?_, ?_⟩
    · rw [hF]
      rw [if_neg hne, if_pos hi, if_pos rfl]
    · rw [hF]
      have : ¬ (i = nIn + nOut - 1 ∧ (2 * i + 2) % 2 = 1 ∧
          2 * i + 2 < 2 * (nIn + nOut)) := by omega
      rw [if_neg this, if_pos hi, if_neg (by omega : ¬ 2 * i + 2 = 0), if_pos rfl]
    · intro j hj hj0 hj2
      rw [hF]
      have hrow : ¬ (i = nIn + nOut - 1 ∧ j % 2 = 1 ∧ j < 2 * (nIn + nOut)) := by
        omega
      rw [if_neg hrow, if_pos hi, if_neg hj0, if_neg hj2]
  · intro j hj
    rw [hF]
    by_cases hodd : j % 2 = 1
    · rw [if_pos ⟨rfl, hodd, hj⟩, if_pos hodd]
    · have : ¬ (nIn + nOut - 1 = nIn + nOut - 1 ∧ j % 2 = 1 ∧
          j < 2 * (nIn + nOut)) := fun hc => hodd hc.2.1
      rw [if_neg this, if_neg (lt_irrefl _), if_neg hodd]
  · intro k hk
    rw [hF]
    rw [if_pos ⟨rfl, by omega, by omega⟩, if_pos (by omega : 2 * k + 1 < 2 * nIn)]
  · intro k hk
    rw [hF]
    rw [if_pos ⟨rfl, by omega, by omega⟩,
      if_neg (by omega : ¬ 2 * (nIn + k) + 1 < 2 * nIn)]

/-- Witness for `junction_setup_dofs_f_matrix` at `nIn = 2`,
`nOut = 1`: the mass-conservation row is `[0, 1, 0, 1, 0, -1]` and the
first pressure row is `[1, 0, -1, 0, 0, 0]`. -/
theorem junction_setup_dofs_f_matrix_witness :
    junctionF 2 1 0 0 = 1 ∧ junctionF 2 1 0 2 = -1 ∧
    junctionF 2 1 2 1 = 1 ∧ junctionF 2 1 2 3 = 1 ∧ junctionF 2 1 2 5 = -1 := by
  have hth := junction_setup_dofs_f_matrix 2 1 (by norm_num)
  refine ⟨(hth.2.1 0 (by norm_num)).1, (hth.2.1 0 (by norm_num)).2.1, ?_, ?_, ?_⟩
  · exact hth.2.2.2.1 0 (by norm_num)
  · exact hth.2.2.2.1 1 (by norm_num)
  · exact hth.2.2.2.2.1 0 (by norm_num)

/-! ### C5: block order of `create_blocks` -/

theorem junctionFromConfig_name (j : JunctionConfig) (nm : String)
    (h : junctionFromConfig j = Except.ok nm) : nm = j.junction_name := by
  unfold junctionFromConfig at h
  split_ifs at h with h1
  · cases h; rfl
  · cases hg : j.junction_name.data.get? 1 with
    | none => rw [hg] at h; cases h
    | some c =>
      rw [hg] at h
      by_cases hd : c.isDigit
      · simp only [hd, not_true, if_neg, Bool.not_eq_true] at h
        simp at h
        exact h.symm
      · simp [hd] at h

theorem createJunctionBlocks_names (js : List JunctionConfig) :
    ∀ names0 conns0 names conns,
      createJunctionBlocks js names0 conns0 = Except.ok (names, conns) →
      names = names0 ++ js.map (fun j => j.junction_name) := by
  induction js with
  | nil =>
    intro names0 conns0 names conns h
    simp only [createJunctionBlocks] at h
    cases h
    simp
  | cons j rest ih =>
    intro names0 conns0 names conns h
    simp only [createJunctionBlocks] at h
    by_cases htype : j.junction_type = "NORMAL_JUNCTION" ∨ j.junction_type = "internal_junction"
    · rw [if_pos htype] at h
      cases hfc : junctionFromConfig j with
      | error e => rw [hfc] at h; cases h
      | ok nm =>
        rw [hfc] at h
        dsimp only at h
        have hnm : nm = j.junction_name := junctionFromConfig_name j nm hfc
        by_cases hdup : nm ∈ names0
        · rw [if_pos hdup] at h
          cases h
        · rw [if_neg hdup] at h
          have := ih (names0 ++ [nm]) _ names conns h
          rw [this, hnm]
          simp
    · rw [if_neg htype] at h
      cases h

theorem vesselBCs_names (bcs : List BCConfig) (vid : ℕ) :
    ∀ (locs : List (String × String)) (names0 : List String) (sp : JDict)
      (names1 : List String) (sp' : JDict),
      (names0 ++ locs.map (fun lb => bcBlockName vid lb.1)).Nodup →
      vesselBCs bcs vid locs names0 sp = Except.ok (names1, sp') →
      names1 = names0 ++ locs.map (fun lb => bcBlockName vid lb.1) := by
  intro locs
  induction locs with
  | nil =>
    intro names0 sp names1 sp' _ h
    simp only [vesselBCs] at h
    cases h
    simp
  | cons lb rest ih =>
    intro names0 sp names1 sp' hnd h
    obtain ⟨location, bcname⟩ := lb
    simp only [vesselBCs] at h
    cases hfb : findBC bcs bcname with
    | none => rw [hfb] at h; cases h
    | some bc =>
      rw [hfb] at h
      dsimp only at h
      cases hpc : periodCheck sp bc with
      | error e => rw [hpc] at h; cases h
      | ok sp1 =>
        rw [hpc] at h
        dsimp only at h
        cases hcc : bcCtorCheck bc with
        | error e => rw [hcc] at h; cases h
        | ok _ =>
          rw [hcc] at h
          dsimp only at h
          have hfresh : bcBlockName vid location ∉ names0 := by
            have hd := List.nodup_append.mp (by
              simpa using hnd)
            intro hmem
            exact hd.2.2 hmem (List.mem_cons_self _ _)
          rw [if_neg hfresh] at h
          have hnd' : ((names0 ++ [bcBlockName vid location])
              ++ rest.map (fun lb => bcBlockName vid lb.1)).Nodup := by
            simpa [List.append_assoc] using hnd
          have := ih (names0 ++ [bcBlockName vid location]) sp1 names1 sp' hnd' h
          rw [this]
          simp

/-- The names a single vessel contributes to `block_dict`, in
insertion order: the vessel block, then its boundary-condition
blocks. -/
theorem createVesselBlocks_names (bcs : List BCConfig) :
    ∀ (vs : List VesselConfig) (names0 : List String)
      (conns0 : List (String × String)) (sp : JDict)
      (names : List String) (conns : List (String × String)) (sp' : JDict),
      (names0 ++ vs.flatMap (fun v => vesselBlockName v.vessel_id
        :: (vesselLocations v).map (fun lb => bcBlockName v.vessel_id lb.1))).Nodup →
      createVesselBlocks bcs vs names0 conns0 sp = Except.ok (names, conns, sp') →
      names = names0 ++ vs.flatMap (fun v => vesselBlockName v.vessel_id
        :: (vesselLocations v).map (fun lb => bcBlockName v.vessel_id lb.1)) := by
  intro vs
  induction vs with
  | nil =>
    intro names0 conns0 sp names conns sp' _ h
    simp only [createVesselBlocks] at h
    cases h
    simp
  | cons v rest ih =>
    intro names0 conns0 sp names conns sp' hnd h
    simp only [createVesselBlocks] at h
    by_cases htype : v.zero_d_element_type = "BloodVessel"
    · rw [if_pos htype] at h
      have hndv : ((names0 ++ vesselBlockName v.vessel_id
          :: (vesselLocations v).map (fun lb => bcBlockName v.vessel_id lb.1))
          ++ rest.flatMap (fun v => vesselBlockName v.vessel_id
            :: (vesselLocations v).map (fun lb => bcBlockName v.vessel_id lb.1))).Nodup := by
        rw [List.append_assoc]
        exact hnd
      have hfresh : vesselBlockName v.vessel_id ∉ names0 := by
        have hleft := (List.nodup_append.mp hndv).1
        have hd := (List.nodup_append.mp hleft).2.2
        intro hmem
        exact hd hmem (List.mem_cons_self _ _)
      rw [if_neg hfresh] at h
      cases hbc : vesselBCs bcs v.vessel_id (vesselLocations v)
          (names0 ++ [vesselBlockName v.vessel_id]) sp with
      | error e => rw [hbc] at h; cases h
      | ok r =>
        obtain ⟨names1, sp1⟩ := r
        rw [hbc] at h
        dsimp only at h
        have hnd1 : ((names0 ++ [vesselBlockName v.vessel_id])
            ++ (vesselLocations v).map (fun lb => bcBlockName v.vessel_id lb.1)).Nodup := by
          refine List.Nodup.sublist ?_ hndv
          rw [List.append_assoc names0]
          exact List.sublist_append_left _ _
        have h1 : names1 = (names0 ++ [vesselBlockName v.vessel_id])
            ++ (vesselLocations v).map (fun lb => bcBlockName v.vessel_id lb.1) :=
          vesselBCs_names bcs v.vessel_id (vesselLocations v) _ sp names1 sp1 hnd1 hbc
        have hnd2 : (((names0 ++ [vesselBlockName v.vessel_id])
            ++ (vesselLocations v).map (fun lb => bcBlockName v.vessel_id lb.1))
            ++ rest.flatMap (fun v => vesselBlockName v.vessel_id
              :: (vesselLocations v).map (fun lb => bcBlockName v.vessel_id lb.1))).Nodup := by
          rw [List.append_assoc names0]
          exact hndv
        have := ih names1 _ sp1 names conns sp' (by rw [h1]; exact hnd2) h
        rw [this, h1]
        rw [List.append_assoc names0, List.append_assoc names0]
        rfl
    · rw [if_neg htype] at h
      cases h

/-- C5 (counterexample): a configuration with two connected vessels —
`V0` with an outlet RCR boundary condition and `V1` with an inlet FLOW
boundary condition, all coefficients scalar — yields the block list
`["V0", "BC0_outlet", "V1", "BC1_inlet"]`: each vessel is immediately
followed by its boundary-condition blocks, not the claimed
vessels-then-boundary-conditions grouping
`["V0", "V1", "BC0_outlet", "BC1_inlet"]`.  (Every block here has a
node and scalar coefficients, so the source's `create_blocks` returns
this list without raising.) -/
theorem create_blocks_not_sorted_counterexample :
    createBlocks ⟨[],
        [⟨"OUT", "RCR", [("Rp", JVal.num 100), ("C", JVal.num 1),
          ("Rd", JVal.num 1000), ("Pd", JVal.num 0)]⟩,
         ⟨"IN", "FLOW", [("Q", JVal.num 5)]⟩],
        [⟨0, "BloodVessel", none, some "OUT"⟩,
         ⟨1, "BloodVessel", some "IN", none⟩], []⟩
      = Except.ok ["V0", "BC0_outlet", "V1", "BC1_inlet"] ∧
    sortedGroupNames ⟨[],
        [⟨"OUT", "RCR", [("Rp", JVal.num 100), ("C", JVal.num 1),
          ("Rd", JVal.num 1000), ("Pd", JVal.num 0)]⟩,
         ⟨"IN", "FLOW", [("Q", JVal.num 5)]⟩],
        [⟨0, "BloodVessel", none, some "OUT"⟩,
         ⟨1, "BloodVessel", some "IN", none⟩], []⟩
      = ["V0", "V1", "BC0_outlet", "BC1_inlet"] ∧
    (["V0", "BC0_outlet", "V1", "BC1_inlet"] : List String)
      ≠ ["V0", "V1", "BC0_outlet", "BC1_inlet"] := by
  refine ⟨rfl, by decide, by decide⟩

/-- C5 (amended): the block list returned by `create_blocks` is in
dictionary insertion order: all junction blocks first, in
configuration order, then for each vessel in configuration order the
vessel block followed by its boundary-condition blocks (inlet before
outlet) — not sorted by name.  Block names are unique in every
configuration `create_blocks` accepts; the `Nodup` hypothesis states
this for the expected list.  Determinism is immediate: the embedding
is a pure function of the configuration, and the source iterates
lists and insertion-ordered dictionaries only, so building the same
configuration twice yields the identical order. -/
theorem create_blocks_insertion_order (cfg : SolverConfig) (l : List String)
    (hnd : (insertionOrderNames cfg).Nodup)
    (h : createBlocks cfg = Except.ok l) :
    l = insertionOrderNames cfg := by
  simp only [createBlocks] at h
  cases hj : createJunctionBlocks cfg.junctions [] [] with
  | error e => rw [hj] at h; cases h
  | ok rj =>
    obtain ⟨jnames, jconns⟩ := rj
    rw [hj] at h
    dsimp only at h
    cases hv : createVesselBlocks cfg.boundary_conditions cfg.vessels [] []
        cfg.simulation_parameters with
    | error e => rw [hv] at h; cases h
    | ok rv =>
      obtain ⟨vnames, vconns, sp'⟩ := rv
      rw [hv] at h
      dsimp only at h
      have hjn : jnames = cfg.junctions.map (fun j => j.junction_name) := by
        simpa using createJunctionBlocks_names cfg.junctions [] [] jnames jconns hj
      have hnd' : (insertionOrderNames cfg).Nodup := hnd
      rw [insertionOrderNames] at hnd'
      have hvnodup : (([] : List String)
          ++ cfg.vessels.flatMap (fun v => vesselBlockName v.vessel_id
            :: (vesselLocations v).map (fun lb => bcBlockName v.vessel_id lb.1))).Nodup := by
        simpa using (List.nodup_append.mp hnd').2.1
      have hvn : vnames = cfg.vessels.flatMap (fun v => vesselBlockName v.vessel_id
          :: (vesselLocations v).map (fun lb => bcBlockName v.vessel_id lb.1)) := by
        simpa using createVesselBlocks_names cfg.boundary_conditions cfg.vessels
          [] [] cfg.simulation_parameters vnames vconns sp' hvnodup hv
      by_cases hconn : ((jconns ++ vconns).all
          (fun c => decide (c.1 ∈ dictUnionKeys jnames vnames)
            && decide (c.2 ∈ dictUnionKeys jnames vnames))) = true
      · rw [if_pos hconn] at h
        by_cases hjnodes : (cfg.junctions.all
            (fun j => decide (0 < j.inlet_vessels.length + j.outlet_vessels.length)))
            = true
        swap
        · rw [if_neg hjnodes] at h
          cases h
        rw [if_pos hjnodes] at h
        cases h
        have hdisj := (List.nodup_append.mp hnd').2.2
        rw [dictUnionKeys, hjn, hvn]
        rw [insertionOrderNames]
        congr 1
        rw [List.filter_eq_self]
        intro x hx
        simp only [decide_eq_true_eq]
        intro hxj
        exact hdisj hxj hx
      · rw [if_neg hconn] at h
        cases h

/-- Witness for `create_blocks_insertion_order`: a junction, a vessel
and its outlet RCR boundary condition appear in insertion order. -/
theorem create_blocks_insertion_order_witness :
    (["J1", "V0", "BC0_outlet"] : List String)
      = insertionOrderNames ⟨[],
        [⟨"OUT", "RCR", [("Rp", JVal.num 100), ("C", JVal.num 1),
          ("Rd", JVal.num 1000), ("Pd", JVal.num 0)]⟩],
        [⟨0, "BloodVessel", none, some "OUT"⟩],
        [⟨"J1", "NORMAL_JUNCTION", [0], []⟩]⟩ :=
  create_blocks_insertion_order
    ⟨[],
     [⟨"OUT", "RCR", [("Rp", JVal.num 100), ("C", JVal.num 1),
       ("Rd", JVal.num 1000), ("Pd", JVal.num 0)]⟩],
     [⟨0, "BloodVessel", none, some "OUT"⟩],
     [⟨"J1", "NORMAL_JUNCTION", [0], []⟩]⟩
    ["J1", "V0", "BC0_outlet"] (by decide) rfl

/-! ### C1: the Newton loop of `GeneralizedAlpha.step` -/

theorem newtonLoop_zero {n : ℕ} (assemble : Vec n → SysMats n)
    (solve : MatN n → Vec n → Vec n) (fac invdt atol : NF) (s : GAState n) :
    newtonLoop assemble solve fac invdt atol 0 s
      = ⟨s, 0, false, fun _ => NF.val 0⟩ := rfl

theorem newtonLoop_succ_conv {n : ℕ} (assemble : Vec n → SysMats n)
    (solve : MatN n → Vec n → Vec n) (fac invdt atol : NF) (k : ℕ)
    (s : GAState n) (ht : gaTest assemble atol s = true) :
    newtonLoop assemble solve fac invdt atol (k + 1) s
      = ⟨s, 1, true, residualNF (assemble s.yaf) s.yaf s.ydotam⟩ := by
  have ht' : ((vecAbsMax (residualNF (assemble s.yaf) s.yaf s.ydotam)).leB atol)
      = true := ht
  simp only [newtonLoop]
  rw [if_pos ht']

theorem newtonLoop_succ_iter {n : ℕ} (assemble : Vec n → SysMats n)
    (solve : MatN n → Vec n → Vec n) (fac invdt atol : NF) (k : ℕ)
    (s : GAState n) (ht : gaTest assemble atol s = false) :
    newtonLoop assemble solve fac invdt atol (k + 1) s
      = ⟨(newtonLoop assemble solve fac invdt atol k
            (newtonUpdate assemble solve fac invdt s)).state,
         (newtonLoop assemble solve fac invdt atol k
            (newtonUpdate assemble solve fac invdt s)).iters + 1,
         (newtonLoop assemble solve fac invdt atol k
            (newtonUpdate assemble solve fac invdt s)).converged,
         if (newtonLoop assemble solve fac invdt atol k
              (newtonUpdate assemble solve fac invdt s)).iters = 0 then
           residualNF (assemble s.yaf) s.yaf s.ydotam
         else (newtonLoop assemble solve fac invdt atol k
            (newtonUpdate assemble solve fac invdt s)).lastRes⟩ := by
  have ht' : ¬ (((vecAbsMax (residualNF (assemble s.yaf) s.yaf s.ydotam)).leB atol)
      = true) := by
    intro hc
    have hc2 : gaTest assemble atol s = true := hc
    rw [ht] at hc2
    cases hc2
  simp only [newtonLoop]
  rw [if_neg ht']
  rfl

theorem newtonLoop_char {n : ℕ} (assemble : Vec n → SysMats n)
    (solve : MatN n → Vec n → Vec n) (fac invdt atol : NF) (k : ℕ)
    (s : GAState n) :
    ((newtonLoop assemble solve fac invdt atol k s).converged = true →
      1 ≤ (newtonLoop assemble solve fac invdt atol k s).iters ∧
      (newtonLoop assemble solve fac invdt atol k s).iters ≤ k ∧
      (newtonLoop assemble solve fac invdt atol k s).state
        = (newtonUpdate assemble solve fac invdt)^[(newtonLoop assemble solve fac invdt atol k s).iters - 1] s ∧
      gaTest assemble atol (newtonLoop assemble solve fac invdt atol k s).state = true ∧
      ∀ i, i < (newtonLoop assemble solve fac invdt atol k s).iters - 1 →
        gaTest assemble atol ((newtonUpdate assemble solve fac invdt)^[i] s) = false) ∧
    ((newtonLoop assemble solve fac invdt atol k s).converged = false →
      (newtonLoop assemble solve fac invdt atol k s).iters = k ∧
      (newtonLoop assemble solve fac invdt atol k s).state
        = (newtonUpdate assemble solve fac invdt)^[k] s ∧
      ∀ i, i < k →
        gaTest assemble atol ((newtonUpdate assemble solve fac invdt)^[i] s) = false) := by
  induction k generalizing s with
  | zero =>
    rw [newtonLoop_zero]
    dsimp only
    constructor
    · intro hc
      cases hc
    · intro _
      refine ⟨rfl, rfl, ?_⟩
      intro i hi
      exact absurd hi (Nat.not_lt_zero i)
  | succ k ih =>
    cases ht : gaTest assemble atol s with
    | true =>
      rw [newtonLoop_succ_conv assemble solve fac invdt atol k s ht]
      dsimp only
      refine ⟨fun _ => ?_, fun hc => by cases hc⟩
      refine ⟨le_refl 1, by omega, ?_, ht, ?_⟩
      · simp
      · intro i hi
        exact absurd hi (by omega)
    | false =>
      rw [newtonLoop_succ_iter assemble solve fac invdt atol k s ht]
      dsimp only
      obtain ⟨ihc, ihn⟩ := ih (newtonUpdate assemble solve fac invdt s)
      constructor
      · intro hc
        obtain ⟨h1, h2, h3, h4, h5⟩ := ihc hc
        refine ⟨by omega, by omega, ?_, h4, ?_⟩
        · rw [h3]
          have heq : (newtonLoop assemble solve fac invdt atol k
              (newtonUpdate assemble solve fac invdt s)).iters + 1 - 1
              = ((newtonLoop assemble solve fac invdt atol k
                (newtonUpdate assemble solve fac invdt s)).iters - 1) + 1 := by omega
          rw [heq, Function.iterate_succ_apply]
        · intro i hi
          match i with
          | 0 => simpa using ht
          | i + 1 =>
            rw [Function.iterate_succ_apply]
            exact h5 i (by omega)
      · intro hc
        obtain ⟨h1, h2, h3⟩ := ihn hc
        refine ⟨by omega, ?_, ?_⟩
        · rw [Function.iterate_succ_apply, h2]
        · intro i hi
          match i with
          | 0 => simpa using ht
          | i + 1 =>
            rw [Function.iterate_succ_apply]
            exact h3 i (by omega)

/-- C1: for every call of `GeneralizedAlpha.step`, the Newton loop
runs at most `max_iter` iterations; in each iteration the residual
`r = -E.dot(ydotam) - F.dot(yaf) - C` is computed from the freshly
assembled global matrices (definitions `residualNF`/`gaTest`, shown in
the last conjunct to coincide with the mathematical expression on
exact inputs), the loop exits as soon as `np.abs(r).max() <= atol`
(`converged` implies the final state passes the test and no earlier
iterate did), otherwise the Jacobian
`J = F + (dE + dF + dC + E * fac / dt)` is formed and the increment
`dy` solving `J dy = r` updates `yaf += dy` and
`ydotam += dy * fac / dt` (definition `newtonUpdate`); when the cap is
reached without convergence, the non-convergence message is printed
(`reported = true`) but `step` still returns the corrected pair
`y + (yaf - y)/alpha_f`, `ydot + (ydotam - ydot)/alpha_m` without
aborting (the embedding of `step` is total).  The source requires
`max_iter >= 1` (its default is 30). -/
theorem generalized_alpha_step_newton_loop {n : ℕ} (g : GAIntegrator n)
    (assemble : Vec n → SysMats n) (y ydot : Vec n) (hmi : 0 < g.max_iter) :
    (newtonLoop assemble g.solve g.fac g.time_step_size_inv g.atol g.max_iter
        (gaInitState g y ydot)).iters ≤ g.max_iter ∧
    ((newtonLoop assemble g.solve g.fac g.time_step_size_inv g.atol g.max_iter
        (gaInitState g y ydot)).converged = true →
      gaTest assemble g.atol
        (newtonLoop assemble g.solve g.fac g.time_step_size_inv g.atol g.max_iter
          (gaInitState g y ydot)).state = true ∧
      ∀ i, i < (newtonLoop assemble g.solve g.fac g.time_step_size_inv g.atol
          g.max_iter (gaInitState g y ydot)).iters - 1 →
        gaTest assemble g.atol
          ((newtonUpdate assemble g.solve g.fac g.time_step_size_inv)^[i]
            (gaInitState g y ydot)) = false) ∧
    ((newtonLoop assemble g.solve g.fac g.time_step_size_inv g.atol g.max_iter
        (gaInitState g y ydot)).converged = false →
      (newtonLoop assemble g.solve g.fac g.time_step_size_inv g.atol g.max_iter
        (gaInitState g y ydot)).iters = g.max_iter ∧
      (newtonLoop assemble g.solve g.fac g.time_step_size_inv g.atol g.max_iter
        (gaInitState g y ydot)).state
        = (newtonUpdate assemble g.solve g.fac g.time_step_size_inv)^[g.max_iter]
            (gaInitState g y ydot) ∧
      (gaStep g assemble y ydot).reported = true) ∧
    (gaStep g assemble y ydot).y
      = vecAdd y (vecDivS (vecSub
          (newtonLoop assemble g.solve g.fac g.time_step_size_inv g.atol
            g.max_iter (gaInitState g y ydot)).state.yaf y) g.alpha_f) ∧
    (gaStep g assemble y ydot).ydot
      = vecAdd ydot (vecDivS (vecSub
          (newtonLoop assemble g.solve g.fac g.time_step_size_inv g.atol
            g.max_iter (gaInitState g y ydot)).state.ydotam ydot) g.alpha_m) ∧
    (∀ (qE qF qdE qdF qdC : Fin n → Fin n → ℚ) (qC yq ydq : Fin n → ℚ),
      residualNF ⟨matOfQ qE, matOfQ qF, matOfQ qdE, matOfQ qdF, matOfQ qdC,
          vecOfQ qC⟩ (vecOfQ yq) (vecOfQ ydq)
        = vecOfQ (fun i => -(∑ j, qE i j * ydq j) - (∑ j, qF i j * yq j) - qC i)) := by
  obtain ⟨hconv, hnonconv⟩ := newtonLoop_char assemble g.solve g.fac
    g.time_step_size_inv g.atol g.max_iter (gaInitState g y ydot)
  refine ⟨?_, ?_, ?_, rfl, rfl, ?_⟩
  · cases hc : (newtonLoop assemble g.solve g.fac g.time_step_size_inv g.atol
        g.max_iter (gaInitState g y ydot)).converged with
    | true => exact (hconv hc).2.1
    | false => exact le_of_eq (hnonconv hc).1
  · intro hc
    exact ⟨(hconv hc).2.2.2.1, (hconv hc).2.2.2.2⟩
  · intro hc
    obtain ⟨h1, h2, _⟩ := hnonconv hc
    refine ⟨h1, h2, ?_⟩
    show decide ((newtonLoop assemble g.solve g.fac g.time_step_size_inv g.atol
        g.max_iter (gaInitState g y ydot)).iters = g.max_iter) = true
    rw [h1]
    simp
  · intro qE qF qdE qdF qdC qC yq ydq
    exact residualNF_lift qE qF qdE qdF qdC qC yq ydq

/-- Witness for `generalized_alpha_step_newton_loop`: a concrete
one-dimensional integrator with two Newton iterations. -/
theorem generalized_alpha_step_newton_loop_witness :
    (0 : ℕ) < 2 ∧
    (newtonLoop (fun _ => ⟨fun _ _ => NF.val 0, fun _ _ => NF.val 0,
        fun _ _ => NF.val 0, fun _ _ => NF.val 0, fun _ _ => NF.val 0,
        fun _ => NF.val 1⟩)
      (fun _ r => r) (NF.val 1) (NF.val 1) (NF.val 0) 2
      (gaInitState (⟨NF.val 1, NF.val 1, NF.val 1, NF.val 1, NF.val 1,
        NF.val 1, NF.val 0, 2, fun _ r => r⟩ : GAIntegrator 1)
        (fun _ => NF.val 0) (fun _ => NF.val 0))).iters ≤ 2 :=
  ⟨by decide,
    (generalized_alpha_step_newton_loop
      (⟨NF.val 1, NF.val 1, NF.val 1, NF.val 1, NF.val 1, NF.val 1,
        NF.val 0, 2, fun _ r => r⟩ : GAIntegrator 1)
      (fun _ => ⟨fun _ _ => NF.val 0, fun _ _ => NF.val 0,
        fun _ _ => NF.val 0, fun _ _ => NF.val 0, fun _ _ => NF.val 0,
        fun _ => NF.val 1⟩)
      (fun _ => NF.val 0) (fun _ => NF.val 0) (by decide)).1⟩

/-! ### C2: NaN residuals and aborting -/

/-- C2 (counterexample): `GeneralizedAlpha.step` in `algebra.py`
contains no NaN check.  On a one-dimensional system whose assembled
constant vector is NaN, the Newton residual is NaN in every iteration
(so the convergence test is never satisfied), yet `step` returns the
corrected (all-NaN) pair and merely reports non-convergence instead of
raising an error. -/
theorem generalized_alpha_step_returns_on_nan :
    (let assemble : Vec 1 → SysMats 1 := fun _ =>
        ⟨fun _ _ => NF.val 0, fun _ _ => NF.val 0, fun _ _ => NF.val 0,
         fun _ _ => NF.val 0, fun _ _ => NF.val 0, fun _ => NF.nan⟩
     let g : GAIntegrator 1 := ⟨NF.nan, NF.nan, NF.nan, NF.nan, NF.nan,
        NF.nan, NF.nan, 2, fun _ r => r⟩
     let y : Vec 1 := fun _ => NF.val 0
     vecHasNaN (residualNF (assemble (gaInitState g y y).yaf)
        (gaInitState g y y).yaf (gaInitState g y y).ydotam) = true ∧
     (gaStep g assemble y y).y = (fun _ => NF.nan) ∧
     (gaStep g assemble y y).ydot = (fun _ => NF.nan) ∧
     (gaStep g assemble y y).reported = true) := by
  decide

/-- C2 (amended): only the legacy `GenAlpha.step` of
`time_integration.py` aborts on non-finite residuals: whenever the
Newton loop executes an iteration whose freshly computed residual has
a NaN entry, it raises `RuntimeError("Solution nan")` in that same
iteration, and `step` propagates the error instead of returning; the
`GeneralizedAlpha.step` of `algebra.py` performs no NaN check at all
and always returns the corrected pair (see also the counterexample
showing it returns on a NaN residual). -/
theorem nan_residual_abort_behavior :
    (∀ (n : ℕ) (assemble : Vec n → SysMats n)
       (solver : MatN n → Vec n → Vec n) (fac invdt : NF)
       (nit fuel iit : ℕ) (s : TIState n),
       tiCond s.res iit nit = true →
       vecHasNaN (residualNF (assemble s.yaf) s.yaf s.ydotam) = true →
       tiLoop assemble solver fac invdt nit (fuel + 1) iit s
         = Except.error "Solution nan") ∧
    (∀ (n : ℕ) (assemble : Vec n → SysMats n)
       (solver : MatN n → Vec n → Vec n) (am af gm fac dt : NF)
       (nit : ℕ) (y ydot res0 : Vec n),
       0 < nit →
       vecHasNaN (residualNF
         (assemble (vecAdd y (vecScale (vecSub
           (vecAdd y (vecScale ydot ((NF.val (1/2)).mul dt))) y) af)))
         (vecAdd y (vecScale (vecSub
           (vecAdd y (vecScale ydot ((NF.val (1/2)).mul dt))) y) af))
         (vecAdd ydot (vecScale (vecSub
           (vecScale ydot ((gm.sub (NF.val (1/2))).div gm)) ydot) am))) = true →
       tiStep assemble solver am af gm fac dt nit y ydot res0
         = Except.error "Solution nan") ∧
    (∀ (n : ℕ) (g : GAIntegrator n) (assemble : Vec n → SysMats n)
       (y ydot : Vec n),
       (gaStep g assemble y ydot).y
         = vecAdd y (vecDivS (vecSub
             (newtonLoop assemble g.solve g.fac g.time_step_size_inv g.atol
               g.max_iter (gaInitState g y ydot)).state.yaf y) g.alpha_f) ∧
       (gaStep g assemble y ydot).ydot
         = vecAdd ydot (vecDivS (vecSub
             (newtonLoop assemble g.solve g.fac g.time_step_size_inv g.atol
               g.max_iter (gaInitState g y ydot)).state.ydotam ydot) g.alpha_m)) := by
  have hloop : ∀ (n : ℕ) (assemble : Vec n → SysMats n)
      (solver : MatN n → Vec n → Vec n) (fac invdt : NF)
      (nit fuel iit : ℕ) (s : TIState n),
      tiCond s.res iit nit = true →
      vecHasNaN (residualNF (assemble s.yaf) s.yaf s.ydotam) = true →
      tiLoop assemble solver fac invdt nit (fuel + 1) iit s
        = Except.error "Solution nan" := by
    intro n assemble solver fac invdt nit fuel iit s hcond hnan
    simp only [tiLoop]
    rw [if_pos hcond, if_pos hnan]
  refine ⟨hloop, ?_, fun n g assemble y ydot => ⟨rfl, rfl⟩⟩
  intro n assemble solver am af gm fac dt nit y ydot res0 hnit hnan
  match nit, hnit with
  | m + 1, _ =>
    simp only [tiStep]
    have hcond : tiCond res0 0 (m + 1) = true := by
      simp [tiCond]
    rw [hloop n assemble solver fac ((NF.val 1).div dt) (m + 1) m 0
      ⟨vecAdd y (vecScale (vecSub
         (vecAdd y (vecScale ydot ((NF.val (1/2)).mul dt))) y) af),
       vecAdd ydot (vecScale (vecSub
         (vecScale ydot ((gm.sub (NF.val (1/2))).div gm)) ydot) am),
       res0⟩ hcond hnan]

/-- Witness for `nan_residual_abort_behavior`: the legacy step on a
one-dimensional system with a NaN constant vector raises. -/
theorem nan_residual_abort_behavior_witness :
    tiStep (fun _ : Vec 1 =>
        (⟨fun _ _ => NF.val 0, fun _ _ => NF.val 0, fun _ _ => NF.val 0,
          fun _ _ => NF.val 0, fun _ _ => NF.val 0,
          fun _ => NF.nan⟩ : SysMats 1))
      (fun _ r => r) NF.nan NF.nan NF.nan NF.nan NF.nan 1
      (fun _ => NF.val 0) (fun _ => NF.val 0) (fun _ => NF.val 0)
      = Except.error "Solution nan" :=
  nan_residual_abort_behavior.2.1 1
    (fun _ => ⟨fun _ _ => NF.val 0, fun _ _ => NF.val 0, fun _ _ => NF.val 0,
      fun _ _ => NF.val 0, fun _ _ => NF.val 0, fun _ => NF.nan⟩)
    (fun _ r => r) NF.nan NF.nan NF.nan NF.nan NF.nan 1
    (fun _ => NF.val 0) (fun _ => NF.val 0) (fun _ => NF.val 0)
    (by decide) (by decide)
